import Mathlib

/-!
# Epiphany device back end: launch, argument packing and completion polling

A shallow embedding of `src/base/devices/epiphany/device.c` (`dev_open`,
`dev_run`, `dev_wait`).  The fabric driver (`e_alloc`, `e_write`, `e_read`,
`e_load`, `e_start`) is external: its results are inputs of the model and
every call the code makes is recorded, in program order, in a list of
operations.

Constants, structure layouts and type widths that live in headers outside
`device.c` (`ctrl.h`, `dev_epiphany.h`, `pal_base.h`) are fields of `Config`;
no theorem depends on their values beyond the hypotheses it states.
-/

namespace Epiphany

/-! ## Error numbers (`errno.h`) -/

def EINVAL : Int := 22
def EBADF : Int := 9
def ENOMEM : Int := 12
def EIO : Int := 5

/-! ## Parameters taken from the missing headers -/

/-- Parameters of the model: the constants, structure layouts and integer
widths that `device.c` takes from `ctrl.h`, `dev_epiphany.h`, `pal_base.h` and
from the C implementation. -/
structure Config where
  /-- Width in bits of `size_t` (type of `argssize`, `totsize`, `args[i].size`). -/
  sizeBits : Nat
  /-- Width in bits of `off_t` (type of `offs`). -/
  offBits : Nat
  /-- Ceiling on the argument payload. -/
  EPIPHANY_DEV_MAX_ARGS_SIZE : Nat
  /-- End of the argument area in shared memory. -/
  ARGS_MEM_END_OFFSET : Nat
  /-- Value of `sizeof(struct epiphany_args_header)`. -/
  header_bytes : Nat
  /-- Number of entries of the array `header.size`. -/
  header_capacity : Nat
  /-- Value of `offsetof(struct epiphany_ctrl_mem, status)`. -/
  status_offset : Nat
  /-- Value of `offsetof(struct epiphany_ctrl_mem, argsoffset)`. -/
  argsoffset_offset : Nat
  STATUS_NONE : Nat
  STATUS_SCHEDULED : Nat
  STATUS_RUNNING : Nat
  STATUS_DONE : Nat

/-- The case labels of the `switch` in `dev_wait` are pairwise distinct
(C rejects duplicate labels). -/
def Config.StatusDistinct (cfg : Config) : Prop :=
  cfg.STATUS_NONE ≠ cfg.STATUS_SCHEDULED ∧ cfg.STATUS_NONE ≠ cfg.STATUS_RUNNING ∧
  cfg.STATUS_NONE ≠ cfg.STATUS_DONE ∧ cfg.STATUS_SCHEDULED ≠ cfg.STATUS_RUNNING ∧
  cfg.STATUS_SCHEDULED ≠ cfg.STATUS_DONE ∧ cfg.STATUS_RUNNING ≠ cfg.STATUS_DONE

/-- Modelled from the spec: `struct epiphany_ctrl_mem` is declared in `ctrl.h`,
outside `device.c`; the spec gives the control region as the status-word array
(16 words of 4 bytes) followed by the `argsoffset` field. -/
def Config.CtrlLayout (cfg : Config) : Prop :=
  cfg.status_offset + 64 ≤ cfg.argsoffset_offset

/-- Sanity of the argument-area constants: `size_t` has at least 3 bits, the
largest block (header, payload at the ceiling, alignment slack) is
representable in `size_t` and in `off_t` and fits below `ARGS_MEM_END_OFFSET`. -/
def Config.ArgsArea (cfg : Config) : Prop :=
  3 ≤ cfg.sizeBits ∧ 1 ≤ cfg.offBits ∧
  cfg.header_bytes + cfg.EPIPHANY_DEV_MAX_ARGS_SIZE + 7 < 2 ^ cfg.sizeBits ∧
  cfg.header_bytes + cfg.EPIPHANY_DEV_MAX_ARGS_SIZE + 7 < 2 ^ (cfg.offBits - 1) ∧
  cfg.header_bytes + cfg.EPIPHANY_DEV_MAX_ARGS_SIZE + 7 ≤ cfg.ARGS_MEM_END_OFFSET ∧
  cfg.ARGS_MEM_END_OFFSET < 2 ^ cfg.sizeBits

instance (cfg : Config) : Decidable cfg.StatusDistinct := by
  unfold Config.StatusDistinct; exact inferInstance

instance (cfg : Config) : Decidable cfg.CtrlLayout := by
  unfold Config.CtrlLayout; exact inferInstance

instance (cfg : Config) : Decidable cfg.ArgsArea := by
  unfold Config.ArgsArea; exact inferInstance

/-- A sample configuration (32-bit host, status codes 0..3, eight argument
slots) on which the model is evaluated in the concrete instances below. -/
def sampleConfig : Config where
  sizeBits := 32
  offBits := 32
  EPIPHANY_DEV_MAX_ARGS_SIZE := 4096
  ARGS_MEM_END_OFFSET := 16777216
  header_bytes := 40
  header_capacity := 8
  status_offset := 0
  argsoffset_offset := 64
  STATUS_NONE := 0
  STATUS_SCHEDULED := 1
  STATUS_RUNNING := 2
  STATUS_DONE := 3

/-! ## Machine integers -/

/-- Two's-complement reduction of an integer to a signed `bits`-bit value. -/
def wrapSigned (bits : Nat) (x : Int) : Int :=
  (x + 2 ^ (bits - 1)) % 2 ^ bits - 2 ^ (bits - 1)

/-- Reduction to a 32-bit `int`. -/
def wrapInt (x : Int) : Int := wrapSigned 32 x

/-- The value is representable as a 32-bit `int`. -/
def IsInt32 (x : Int) : Prop := -2147483648 ≤ x ∧ x ≤ 2147483647

instance (x : Int) : Decidable (IsInt32 x) := by
  unfold IsInt32; exact inferInstance

/-- Index sequence of `for (i = lo; i < hi; i++)`. -/
def forRange (lo hi : Int) : List Int :=
  List.map (fun (k : Nat) => lo + (k : Int)) (List.range (hi - lo).toNat)

/-! ## Data -/

/-- One argument descriptor (`p_arg_t`): the pointer is kept as an opaque
address, `size` is a `size_t`. -/
structure p_arg_t where
  ptr : Nat
  size : Nat
deriving DecidableEq, Repr

/-- Every `args[i].size` is a value of type `size_t`. -/
def ArgsWellTyped (cfg : Config) (args : Nat → p_arg_t) : Prop :=
  ∀ i, (args i).size < 2 ^ cfg.sizeBits

/-- The part of `struct epiphany_dev_data` that the control path reads. -/
structure epiphany_dev_data where
  opened : Bool
deriving DecidableEq, Repr

/-- Shared regions the code writes to: `data->ctrl` and `data->args`. -/
inductive Region where
  | ctrl
  | args
deriving DecidableEq, Repr

/-- What an `e_write` copies. -/
inductive Payload where
  /-- The local `header`: `nargs` and the stores made into `header.size`. -/
  | header (nargs : Int) (sizes : List (Int × Nat))
  /-- Raw bytes behind `args[i].ptr`. -/
  | bytes (ptr : Nat)
  /-- A single integer object (`scheduled`, `totsize`). -/
  | word (v : Nat)
deriving DecidableEq, Repr

/-- Calls into the fabric driver made by `dev_run`. -/
inductive FabricOp where
  | e_alloc (r : Region) (offset : Nat) (size : Nat)
  | e_write (r : Region) (offset : Int) (data : Payload) (len : Nat)
  | e_load (path : Nat) (row col : Int)
  | e_start (row col : Int)
deriving DecidableEq, Repr

/-- Results of the fabric driver calls whose return value `dev_run` tests
(`true` = success). -/
structure Fabric where
  e_alloc : Nat → Nat → Bool
  e_load : Nat → Int → Int → Bool
  e_start : Int → Int → Bool

/-- Outcome of `dev_run`: return value, fabric calls in program order, and the
stores `header.size[i] = v` made by the first loop, in order. -/
structure RunResult where
  ret : Int
  ops : List FabricOp
  stores : List (Int × Nat)
deriving DecidableEq, Repr

/-! ## `dev_run` -/

/-- First loop of the packing block: `argssize += args[i].size` in `size_t`. -/
def sumSizes (cfg : Config) (args : Nat → p_arg_t) : List Int → Nat → Nat
  | [], acc => acc
  | i :: rest, acc =>
      sumSizes cfg args rest ((acc + (args i.toNat).size) % 2 ^ cfg.sizeBits)

/-- First loop of the packing block: the stores `header.size[i] = args[i].size`. -/
def headerStores (args : Nat → p_arg_t) (idx : List Int) : List (Int × Nat) :=
  idx.map (fun i => (i, (args i.toNat).size))

/-- The statement `totsize = (totsize + 7) & (~7)` in `size_t`. -/
def alignUp8 (cfg : Config) (t : Nat) : Nat :=
  ((t + 7) % 2 ^ cfg.sizeBits) &&& (2 ^ cfg.sizeBits - 8)

/-- Second loop of the packing block: one `e_write` per argument, then
`offs += args[i].size` in `off_t`. -/
def writeArgs (cfg : Config) (args : Nat → p_arg_t) : List Int → Int → List FabricOp
  | [], _ => []
  | i :: rest, offs =>
      FabricOp.e_write Region.args offs (Payload.bytes (args i.toNat).ptr) (args i.toNat).size ::
        writeArgs cfg args rest (wrapSigned cfg.offBits (offs + ((args i.toNat).size : Int)))

/-- Load loop: stops at the first failing `e_load`. -/
def loadLoop (env : Fabric) (path : Nat) : List Int → List FabricOp × Bool
  | [] => ([], true)
  | i :: rest =>
      if env.e_load path (i.tdiv 4) (i.tmod 4) then
        (FabricOp.e_load path (i.tdiv 4) (i.tmod 4) :: (loadLoop env path rest).1,
          (loadLoop env path rest).2)
      else ([FabricOp.e_load path (i.tdiv 4) (i.tmod 4)], false)

/-- The `e_write` of the mark loop for core `i`. -/
def markOp (cfg : Config) (i : Int) : FabricOp :=
  FabricOp.e_write Region.ctrl ((cfg.status_offset : Int) + i * 4)
    (Payload.word cfg.STATUS_SCHEDULED) 4

/-- Start loop: stops at the first failing `e_start`. -/
def startLoop (env : Fabric) : List Int → List FabricOp × Bool
  | [] => ([], true)
  | i :: rest =>
      if env.e_start (i.tdiv 4) (i.tmod 4) then
        (FabricOp.e_start (i.tdiv 4) (i.tmod 4) :: (startLoop env rest).1,
          (startLoop env rest).2)
      else ([FabricOp.e_start (i.tdiv 4) (i.tmod 4)], false)

/-- Value of `argssize` after the first loop. -/
def argssize (cfg : Config) (argn : Int) (args : Nat → p_arg_t) : Nat :=
  sumSizes cfg args (forRange 0 argn) 0

/-- Value of `totsize` after rounding. -/
def totsize (cfg : Config) (argn : Int) (args : Nat → p_arg_t) : Nat :=
  alignUp8 cfg ((cfg.header_bytes + argssize cfg argn args) % 2 ^ cfg.sizeBits)

/-- First argument of the `e_alloc` call: `ARGS_MEM_END_OFFSET - totsize`. -/
def allocBase (cfg : Config) (argn : Int) (args : Nat → p_arg_t) : Nat :=
  (cfg.ARGS_MEM_END_OFFSET + 2 ^ cfg.sizeBits - totsize cfg argn args) % 2 ^ cfg.sizeBits

/-- Fabric calls of the packing block when `e_alloc` succeeds. -/
def packOps (cfg : Config) (argn : Int) (args : Nat → p_arg_t) : List FabricOp :=
  FabricOp.e_alloc Region.args (allocBase cfg argn args) (totsize cfg argn args) ::
  FabricOp.e_write Region.args 0
      (Payload.header argn (headerStores args (forRange 0 argn))) cfg.header_bytes ::
  (writeArgs cfg args (forRange 0 argn) (wrapSigned cfg.offBits (0 + (cfg.header_bytes : Int))) ++
   [FabricOp.e_write Region.ctrl (cfg.argsoffset_offset : Int)
      (Payload.word (totsize cfg argn args)) (cfg.sizeBits / 8)])

/-- The function `dev_run`.  `dev_data` is `dev->dev_data` (`none` for `NULL`),
`path` stands for `prog->path`; `team`, `function` and `flags` are unused by
the code. -/
def dev_run (cfg : Config) (env : Fabric) (dev_data : Option epiphany_dev_data) (path : Nat)
    (start size argn : Int) (args : Nat → p_arg_t) : RunResult :=
  if start < 0 ∨ size ≤ 0 then ⟨-EINVAL, [], []⟩
  else if 16 < wrapInt (start + size) then ⟨-EINVAL, [], []⟩
  else
    match dev_data with
    | none => ⟨-EBADF, [], []⟩
    | some data =>
      if data.opened = false then ⟨-EBADF, [], []⟩
      else
        let stores := headerStores args (forRange 0 argn)
        if cfg.EPIPHANY_DEV_MAX_ARGS_SIZE < argssize cfg argn args then ⟨-ENOMEM, [], stores⟩
        else if env.e_alloc (allocBase cfg argn args) (totsize cfg argn args) = false then
          ⟨-ENOMEM,
            [FabricOp.e_alloc Region.args (allocBase cfg argn args) (totsize cfg argn args)],
            stores⟩
        else
          let cores := forRange start (wrapInt (start + size))
          let loads := loadLoop env path cores
          if loads.2 = false then ⟨- EIO, packOps cfg argn args ++ loads.1, stores⟩
          else
            let marks := cores.map (markOp cfg)
            let starts := startLoop env cores
            if starts.2 = false then
              ⟨- EIO, packOps cfg argn args ++ loads.1 ++ marks ++ starts.1, stores⟩
            else ⟨0, packOps cfg argn args ++ loads.1 ++ marks ++ starts.1, stores⟩

/-! ## Stages of `dev_run` -/

/-- The two range tests at the top of `dev_run` both pass. -/
def RangeAccepted (start size : Int) : Prop :=
  ¬ (start < 0 ∨ size ≤ 0) ∧ ¬ (16 < wrapInt (start + size))

instance (start size : Int) : Decidable (RangeAccepted start size) := by
  unfold RangeAccepted; exact inferInstance

/-- The packing block of `dev_run` is passed: the size test and `e_alloc` succeed. -/
def Packed (cfg : Config) (env : Fabric) (argn : Int) (args : Nat → p_arg_t) : Prop :=
  argssize cfg argn args ≤ cfg.EPIPHANY_DEV_MAX_ARGS_SIZE ∧
  env.e_alloc (allocBase cfg argn args) (totsize cfg argn args) = true

instance (cfg : Config) (env : Fabric) (argn : Int) (args : Nat → p_arg_t) :
    Decidable (Packed cfg env argn args) := by
  unfold Packed; exact inferInstance

/-- Result of `dev_run` once validation and packing are passed, in terms of
the three launch loops. -/
def launchResult (cfg : Config) (env : Fabric) (path : Nat) (start size argn : Int)
    (args : Nat → p_arg_t) : RunResult :=
  let cores := forRange start (wrapInt (start + size))
  let loads := loadLoop env path cores
  let starts := startLoop env cores
  if loads.2 = false then
    ⟨- EIO, packOps cfg argn args ++ loads.1, headerStores args (forRange 0 argn)⟩
  else if starts.2 = false then
    ⟨- EIO, packOps cfg argn args ++ loads.1 ++ cores.map (markOp cfg) ++ starts.1,
      headerStores args (forRange 0 argn)⟩
  else
    ⟨0, packOps cfg argn args ++ loads.1 ++ cores.map (markOp cfg) ++ starts.1,
      headerStores args (forRange 0 argn)⟩

/-- A fabric driver on which every call succeeds. -/
def okFabric : Fabric := ⟨fun _ _ => true, fun _ _ _ => true, fun _ _ => true⟩

/-- Sum of the argument lengths `args[0].size + ... + args[argn-1].size` as a
natural number (no reduction modulo the width of `size_t`). -/
def payloadSize (argn : Int) (args : Nat → p_arg_t) : Nat :=
  ((forRange 0 argn).map (fun i => (args i.toNat).size)).sum

/-- The byte extent `[offset, offset + len)` of every `e_write` into the
argument region, in program order. -/
def argWrites : List FabricOp → List (Int × Nat)
  | [] => []
  | FabricOp.e_write Region.args off _ len :: rest => (off, len) :: argWrites rest
  | _ :: rest => argWrites rest

/-- Every `e_write` into the control region, in program order: byte offset,
object written, length. -/
def ctrlWrites : List FabricOp → List (Int × Payload × Nat)
  | [] => []
  | FabricOp.e_write Region.ctrl off data len :: rest => (off, data, len) :: ctrlWrites rest
  | _ :: rest => ctrlWrites rest

/-- The argument list of two descriptors of `2 ^ (sizeBits - 1)` bytes each. -/
def hugeArgs (cfg : Config) : Nat → p_arg_t :=
  fun _ => ⟨0, 2 ^ (cfg.sizeBits - 1)⟩

/-- Extents of consecutive writes of the given lengths, each starting where
the previous one ends, the first at `off`. -/
def layoutFrom : Int → List Nat → List (Int × Nat)
  | _, [] => []
  | off, s :: rest => (off, s) :: layoutFrom (off + (s : Int)) rest

/-! ## `dev_open` -/

/-- The part of `struct dev` used here: an identity and `dev_data`
(`none` for `NULL`). -/
structure Dev where
  id : Nat
  dev_data : Option epiphany_dev_data
deriving DecidableEq, Repr

/-- The part of `struct team` used here: the `dev` pointer (`none` when unset). -/
structure Team where
  dev : Option Nat
deriving DecidableEq, Repr

/-- Outcome of `dev_open`. -/
inductive OpenResult where
  /-- The function returns `team`, after `team->dev = dev`. -/
  | ok (t : Team)
  /-- The function returns `p_ref_err(code)`. -/
  | err (code : Int)
  /-- The function evaluates `data->opened` with `data == NULL`. -/
  | null_deref
deriving DecidableEq, Repr

/-- The function `dev_open`. -/
def dev_open (d : Dev) (_t : Team) (start count : Int) : OpenResult :=
  if start ≠ 0 ∨ count ≠ 16 then OpenResult.err EINVAL
  else
    match d.dev_data with
    | none => OpenResult.null_deref
    | some data =>
      if data.opened = false then OpenResult.err EBADF
      else OpenResult.ok ⟨some d.id⟩

/-! ## `dev_wait` -/

/-- Contents of `ctrl.status[0..15]`. -/
abbrev StatusArray := Fin 16 → Nat

/-- Calls made by `dev_wait`. -/
inductive WaitOp where
  | e_read
  | usleep (us : Nat)
deriving DecidableEq, Repr

/-- Outcome of `dev_wait`: return value, the last contents of the local
`ctrl.status`, and the calls made in program order. -/
structure WaitResult where
  ret : Int
  ctrl : StatusArray
  ops : List WaitOp

/-- The `switch` of `dev_wait` applied to one status word: the new value of
`need_wait`. -/
def switchStatus (cfg : Config) (w : Nat) (need_wait : Bool) : Bool :=
  if w = cfg.STATUS_SCHEDULED then true
  else if w = cfg.STATUS_RUNNING then true
  else need_wait

/-- The loop `for (i = 0; i < 16; i++)` of `dev_wait`, from index `i` with at
most `n` iterations left; the result is the final `need_wait`. -/
def scanStatus (cfg : Config) (ctrl : StatusArray) : Nat → Nat → Bool → Bool
  | 0, _, need_wait => need_wait
  | n + 1, i, need_wait =>
      if h : i < 16 then
        scanStatus cfg ctrl n (i + 1) (switchStatus cfg (ctrl ⟨i, h⟩) need_wait)
      else need_wait

/-- The loop `while (true)` of `dev_wait`: `reads k` is what the `k`-th `e_read`
(counting from 0) stores in `ctrl`, the first argument bounds the number of
iterations (`none` = still polling when the bound is reached). -/
def waitLoop (cfg : Config) (reads : Nat → StatusArray) :
    Nat → Nat → List WaitOp → Option WaitResult
  | 0, _, _ => none
  | fuel + 1, k, ops =>
      if scanStatus cfg (reads k) 16 0 false = false then
        some ⟨0, reads k, ops ++ [WaitOp.e_read]⟩
      else waitLoop cfg reads fuel (k + 1) (ops ++ [WaitOp.e_read, WaitOp.usleep 1000])

/-- The function `dev_wait` on a device whose `dev_data` is set. -/
def dev_wait (cfg : Config) (reads : Nat → StatusArray) (fuel : Nat) : Option WaitResult :=
  waitLoop cfg reads fuel 0 []

/-- Calls made by a `dev_wait` that returns on snapshot `k`: a read and a sleep
for each of the `k` earlier snapshots, then the final read. -/
def waitOps : Nat → List WaitOp
  | 0 => [WaitOp.e_read]
  | k + 1 => WaitOp.e_read :: WaitOp.usleep 1000 :: waitOps k

/-- Some status word of the snapshot is SCHEDULED or RUNNING. -/
def Busy (cfg : Config) (ctrl : StatusArray) : Prop :=
  ∃ i : Fin 16, ctrl i = cfg.STATUS_SCHEDULED ∨ ctrl i = cfg.STATUS_RUNNING

/-! ## Status words in shared memory -/

/-- One transition made by the device on a status word. -/
inductive deviceStep (cfg : Config) : Nat → Nat → Prop where
  | started : deviceStep cfg cfg.STATUS_SCHEDULED cfg.STATUS_RUNNING
  | finished : deviceStep cfg cfg.STATUS_RUNNING cfg.STATUS_DONE

/-- The device makes zero or more transitions on each status word. -/
def DevSteps (cfg : Config) (s s' : StatusArray) : Prop :=
  ∀ i, Relation.ReflTransGen (deviceStep cfg) (s i) (s' i)

/-- Effect of one fabric call of `dev_run` on the status words: a 4-byte
`e_write` of one word into the control region at the byte offset of status
word `i` replaces that word.  (With the control-region layout of the spec no
other write of `dev_run` overlaps the status array.) -/
def applyOp (cfg : Config) (op : FabricOp) (s : StatusArray) : StatusArray :=
  match op with
  | FabricOp.e_write Region.ctrl off (Payload.word v) len =>
      if len = 4 then
        fun i => if off = (cfg.status_offset : Int) + 4 * (i.val : Int) then v else s i
      else s
  | _ => s

/-- A run of the host through the fabric calls `ops`, the device making any
number of its own transitions before each call and after the last one. -/
def Exec (cfg : Config) : List FabricOp → StatusArray → StatusArray → Prop
  | [], s, s' => DevSteps cfg s s'
  | op :: rest, s, s' => ∃ m, DevSteps cfg s m ∧ Exec cfg rest (applyOp cfg op m) s'

/-- The status words after the fabric calls `ops` when the device makes no
transition in between. -/
def applyOps (cfg : Config) : List FabricOp → StatusArray → StatusArray
  | [], s => s
  | op :: rest, s => applyOps cfg rest (applyOp cfg op s)

/-- Every core that is SCHEDULED runs to completion; other words are unchanged. -/
def finishAll (cfg : Config) (s : StatusArray) : StatusArray :=
  fun i => if s i = cfg.STATUS_SCHEDULED then cfg.STATUS_DONE else s i

/-- Status words after the sample launch of cores 5 and 6 from an all-NONE
control region, before the device has moved. -/
def sampleLaunched : StatusArray :=
  applyOps sampleConfig
    (dev_run sampleConfig okFabric (some ⟨true⟩) 7 5 2 0 (fun _ => ⟨0, 0⟩)).ops (fun _ => 0)

/-- Snapshots of a sample run: the first read still sees the launched cores
SCHEDULED, every later read sees them DONE. -/
def sampleReads : Nat → StatusArray
  | 0 => sampleLaunched
  | _ + 1 => finishAll sampleConfig sampleLaunched

/-- Snapshots in which core 5 is RUNNING for the first two reads and every
core is DONE afterwards. -/
def sampleBusyReads : Nat → StatusArray :=
  fun k i => if k < 2 then (if i.val = 5 then 2 else 3) else 3

/-- The status word is SCHEDULED, RUNNING or DONE. -/
def Live (cfg : Config) (w : Nat) : Prop :=
  w = cfg.STATUS_SCHEDULED ∨ w = cfg.STATUS_RUNNING ∨ w = cfg.STATUS_DONE

/-- The fabric call leaves status word `i` alone or stores SCHEDULED in it. -/
def Gentle (cfg : Config) (i : Fin 16) (op : FabricOp) : Prop :=
  ∀ s : StatusArray, applyOp cfg op s i = s i ∨ applyOp cfg op s i = cfg.STATUS_SCHEDULED

/-! # Theorems -/

/-! ## Machine-integer facts -/

theorem wrapSigned_of_range (bits : Nat) (x : Int) (hb : 1 ≤ bits)
    (hlo : -(2 ^ (bits - 1) : Int) ≤ x) (hhi : x < 2 ^ (bits - 1)) :
    wrapSigned bits x = x := by
  unfold wrapSigned
  have hp : (2 : Int) ^ bits = 2 * 2 ^ (bits - 1) := by
    obtain ⟨n, rfl⟩ : ∃ n, bits = n + 1 := ⟨bits - 1, by omega⟩
    simp [pow_succ, mul_comm]
  rw [hp]
  generalize (2 : Int) ^ (bits - 1) = P at *
  rw [Int.emod_eq_of_lt (by omega) (by omega)]
  omega

theorem wrapInt_of_range (x : Int) (hlo : -2147483648 ≤ x) (hhi : x ≤ 2147483647) :
    wrapInt x = x := by
  unfold wrapInt wrapSigned
  norm_num
  omega

theorem mem_forRange (lo hi i : Int) : i ∈ forRange lo hi ↔ lo ≤ i ∧ i < hi := by
  unfold forRange
  simp only [List.mem_map, List.mem_range]
  constructor
  · rintro ⟨k, hk, rfl⟩
    omega
  · rintro ⟨h1, h2⟩
    exact ⟨(i - lo).toNat, by omega, by omega⟩

theorem forRange_eq_nil (lo hi : Int) (h : hi ≤ lo) : forRange lo hi = [] := by
  unfold forRange
  have : (hi - lo).toNat = 0 := by omega
  simp [this]

/-! ## Shape of the result of `dev_run` -/

theorem dev_run_range_rejected (cfg : Config) (env : Fabric) (d : Option epiphany_dev_data)
    (path : Nat) (start size argn : Int) (args : Nat → p_arg_t)
    (h : ¬ RangeAccepted start size) :
    dev_run cfg env d path start size argn args = ⟨-EINVAL, [], []⟩ := by
  unfold RangeAccepted at h
  unfold dev_run
  by_cases h1 : start < 0 ∨ size ≤ 0
  · rw [if_pos h1]
  · rw [if_neg h1]
    have h2 : 16 < wrapInt (start + size) := by
      by_contra h2
      exact h ⟨h1, h2⟩
    rw [if_pos h2]

theorem dev_run_not_open (cfg : Config) (env : Fabric) (d : Option epiphany_dev_data)
    (path : Nat) (start size argn : Int) (args : Nat → p_arg_t)
    (h : RangeAccepted start size) (hd : d = none ∨ d = some ⟨false⟩) :
    dev_run cfg env d path start size argn args = ⟨-EBADF, [], []⟩ := by
  unfold dev_run
  rw [if_neg h.1, if_neg h.2]
  rcases hd with rfl | rfl <;> simp

theorem dev_run_too_large (cfg : Config) (env : Fabric)
    (path : Nat) (start size argn : Int) (args : Nat → p_arg_t)
    (h : RangeAccepted start size)
    (hbig : cfg.EPIPHANY_DEV_MAX_ARGS_SIZE < argssize cfg argn args) :
    dev_run cfg env (some ⟨true⟩) path start size argn args =
      ⟨-ENOMEM, [], headerStores args (forRange 0 argn)⟩ := by
  unfold dev_run
  rw [if_neg h.1, if_neg h.2]
  simp [hbig]

theorem dev_run_alloc_failed (cfg : Config) (env : Fabric)
    (path : Nat) (start size argn : Int) (args : Nat → p_arg_t)
    (h : RangeAccepted start size)
    (hfit : argssize cfg argn args ≤ cfg.EPIPHANY_DEV_MAX_ARGS_SIZE)
    (halloc : env.e_alloc (allocBase cfg argn args) (totsize cfg argn args) = false) :
    dev_run cfg env (some ⟨true⟩) path start size argn args =
      ⟨-ENOMEM, [FabricOp.e_alloc Region.args (allocBase cfg argn args) (totsize cfg argn args)],
        headerStores args (forRange 0 argn)⟩ := by
  unfold dev_run
  rw [if_neg h.1, if_neg h.2]
  simp [Nat.not_lt.mpr hfit, halloc]

theorem dev_run_packed (cfg : Config) (env : Fabric)
    (path : Nat) (start size argn : Int) (args : Nat → p_arg_t)
    (h : RangeAccepted start size) (hp : Packed cfg env argn args) :
    dev_run cfg env (some ⟨true⟩) path start size argn args =
      launchResult cfg env path start size argn args := by
  unfold dev_run launchResult
  rw [if_neg h.1, if_neg h.2]
  simp [Nat.not_lt.mpr hp.1, hp.2]

/-- Past validation on an opened device, the stores into `header.size` are
those of the first loop, whatever happens afterwards. -/
theorem dev_run_stores (cfg : Config) (env : Fabric)
    (path : Nat) (start size argn : Int) (args : Nat → p_arg_t)
    (h : RangeAccepted start size) :
    (dev_run cfg env (some ⟨true⟩) path start size argn args).stores =
      headerStores args (forRange 0 argn) := by
  by_cases hbig : cfg.EPIPHANY_DEV_MAX_ARGS_SIZE < argssize cfg argn args
  · rw [dev_run_too_large cfg env path start size argn args h hbig]
  · by_cases halloc : env.e_alloc (allocBase cfg argn args) (totsize cfg argn args) = false
    · rw [dev_run_alloc_failed cfg env path start size argn args h (Nat.not_lt.mp hbig) halloc]
    · rw [dev_run_packed cfg env path start size argn args h
        ⟨Nat.not_lt.mp hbig, by simpa using halloc⟩]
      unfold launchResult
      simp only []
      split_ifs <;> rfl

/-- Sequence of `e_load` calls when every load succeeds. -/
theorem loadLoop_all_ok (env : Fabric) (path : Nat) (l : List Int)
    (h : ∀ i ∈ l, env.e_load path (i.tdiv 4) (i.tmod 4) = true) :
    loadLoop env path l = (l.map (fun i => FabricOp.e_load path (i.tdiv 4) (i.tmod 4)), true) := by
  induction l with
  | nil => rfl
  | cons i rest ih =>
    have hi := h i (List.mem_cons_self _ _)
    have hr := ih (fun j hj => h j (List.mem_cons_of_mem _ hj))
    simp [loadLoop, hi, hr]

/-- Sequence of `e_start` calls when every start succeeds. -/
theorem startLoop_all_ok (env : Fabric) (l : List Int)
    (h : ∀ i ∈ l, env.e_start (i.tdiv 4) (i.tmod 4) = true) :
    startLoop env l = (l.map (fun i => FabricOp.e_start (i.tdiv 4) (i.tmod 4)), true) := by
  induction l with
  | nil => rfl
  | cons i rest ih =>
    have hi := h i (List.mem_cons_self _ _)
    have hr := ih (fun j hj => h j (List.mem_cons_of_mem _ hj))
    simp [startLoop, hi, hr]

theorem loadLoop_ops (env : Fabric) (path : Nat) (l : List Int) :
    ∀ op ∈ (loadLoop env path l).1, ∃ r c, op = FabricOp.e_load path r c := by
  induction l with
  | nil => simp [loadLoop]
  | cons i rest ih =>
    intro op hop
    unfold loadLoop at hop
    split_ifs at hop
    · rcases List.mem_cons.mp hop with rfl | h
      · exact ⟨_, _, rfl⟩
      · exact ih op h
    · rcases List.mem_cons.mp hop with rfl | h
      · exact ⟨_, _, rfl⟩
      · simp at h

theorem startLoop_ops (env : Fabric) (l : List Int) :
    ∀ op ∈ (startLoop env l).1, ∃ r c, op = FabricOp.e_start r c := by
  induction l with
  | nil => simp [startLoop]
  | cons i rest ih =>
    intro op hop
    unfold startLoop at hop
    split_ifs at hop
    · rcases List.mem_cons.mp hop with rfl | h
      · exact ⟨_, _, rfl⟩
      · exact ih op h
    · rcases List.mem_cons.mp hop with rfl | h
      · exact ⟨_, _, rfl⟩
      · simp at h

/-! ## Validation of the core range (`dev_run`, lines 141-149) -/

/-- When `start + size` does not overflow `int`, `dev_run` returns `-EINVAL`
exactly for the ranges that are not non-empty sub-ranges of `[0, 16)`. -/
theorem dev_run_EINVAL_iff (cfg : Config) (env : Fabric) (d : Option epiphany_dev_data)
    (path : Nat) (start size argn : Int) (args : Nat → p_arg_t)
    (hsum : start + size ≤ 2147483647) :
    (dev_run cfg env d path start size argn args).ret = -EINVAL ↔
      (start < 0 ∨ size ≤ 0 ∨ 16 < start + size) := by
  constructor
  · intro h
    by_contra hn
    push_neg at hn
    have hw : wrapInt (start + size) = start + size :=
      wrapInt_of_range _ (by omega) hsum
    have hacc : RangeAccepted start size := by
      unfold RangeAccepted
      rw [hw]
      omega
    revert h
    unfold dev_run
    rw [if_neg hacc.1, if_neg hacc.2]
    cases d with
    | none => simp [EINVAL, EBADF]
    | some data =>
      simp only [EINVAL, EBADF, ENOMEM, EIO]
      split_ifs <;> simp
  · intro h
    have hacc : ¬ RangeAccepted start size := by
      unfold RangeAccepted
      by_cases h1 : start < 0 ∨ size ≤ 0
      · exact fun hc => hc.1 h1
      · have hw : wrapInt (start + size) = start + size :=
          wrapInt_of_range _ (by omega) hsum
        rw [hw]
        intro hc
        omega
    rw [dev_run_range_rejected cfg env d path start size argn args hacc]

/-- On an accepted range `dev_run` returns `-EBADF` exactly when the device has
no device data or is not marked opened. -/
theorem dev_run_EBADF_iff (cfg : Config) (env : Fabric) (d : Option epiphany_dev_data)
    (path : Nat) (start size argn : Int) (args : Nat → p_arg_t)
    (hacc : RangeAccepted start size) :
    (dev_run cfg env d path start size argn args).ret = -EBADF ↔
      (d = none ∨ d = some ⟨false⟩) := by
  constructor
  · intro h
    by_contra hn
    push_neg at hn
    revert h
    unfold dev_run
    rw [if_neg hacc.1, if_neg hacc.2]
    cases d with
    | none => exact absurd rfl hn.1
    | some data =>
      cases data with
      | mk o =>
        cases o with
        | false => exact absurd rfl hn.2
        | true =>
          simp only [EINVAL, EBADF, ENOMEM, EIO]
          split_ifs <;> first | contradiction | simp
  · intro h
    rw [dev_run_not_open cfg env d path start size argn args hacc h]

/-- C5 (the code at the failing input): `start = INT_MAX`, `size = 1` are valid
`int` values whose range `[start, start + size)` leaves `[0, 16)`, yet with
`start + size` reduced to 32 bits both range tests pass: on an opened device
whose packing succeeds `dev_run` returns 0, having issued the packing calls and
no load, mark or start. -/
theorem dev_run_wrapped_range_accepted (cfg : Config) (env : Fabric) (path : Nat)
    (argn : Int) (args : Nat → p_arg_t) (hp : Packed cfg env argn args) :
    IsInt32 2147483647 ∧ IsInt32 1 ∧ (16 : Int) < 2147483647 + 1 ∧
    dev_run cfg env (some ⟨true⟩) path 2147483647 1 argn args =
      ⟨0, packOps cfg argn args, headerStores args (forRange 0 argn)⟩ := by
  refine ⟨by decide, by decide, by decide, ?_⟩
  have hacc : RangeAccepted 2147483647 1 := by decide
  rw [dev_run_packed cfg env path 2147483647 1 argn args hacc hp]
  have hw : wrapInt (2147483647 + 1) = -2147483648 := by decide
  unfold launchResult
  rw [hw, forRange_eq_nil _ _ (by decide)]
  simp [loadLoop, startLoop]

/-- Instance on the sample configuration with an empty argument list. -/
theorem dev_run_wrapped_range_accepted_witness :
    Packed sampleConfig okFabric 0 (fun _ => ⟨0, 0⟩) ∧
    (IsInt32 2147483647 ∧ IsInt32 1 ∧ (16 : Int) < 2147483647 + 1 ∧
    dev_run sampleConfig okFabric (some ⟨true⟩) 7 2147483647 1 0 (fun _ => ⟨0, 0⟩) =
      ⟨0, packOps sampleConfig 0 (fun _ => ⟨0, 0⟩),
        headerStores (fun _ => ⟨0, 0⟩) (forRange 0 0)⟩) :=
  ⟨by decide, dev_run_wrapped_range_accepted sampleConfig okFabric 7 0 (fun _ => ⟨0, 0⟩)
    (by decide)⟩

/-! ## `dev_open` -/

/-- The parts of the contract of `dev_open` that the code meets: any
`(start, count)` other than `(0, 16)` gives `EINVAL`; `(0, 16)` on device data
that is not opened gives `EBADF`, and on opened device data gives the team
bound to the device. -/
theorem dev_open_checked (d : Dev) (t : Team) (start count : Int) :
    ((start ≠ 0 ∨ count ≠ 16) → dev_open d t start count = OpenResult.err EINVAL) ∧
    (d.dev_data = some ⟨false⟩ → dev_open d t 0 16 = OpenResult.err EBADF) ∧
    (d.dev_data = some ⟨true⟩ → dev_open d t 0 16 = OpenResult.ok ⟨some d.id⟩) := by
  refine ⟨?_, ?_, ?_⟩
  · intro h
    unfold dev_open
    rw [if_pos h]
  · intro h
    unfold dev_open
    simp [h]
  · intro h
    unfold dev_open
    simp [h]

/-- C8 (the code at the failing input): on a device that has not been
initialised (`dev_data == NULL`) the call `dev_open(dev, team, 0, 16)` passes
the range test and then evaluates `data->opened` through the null pointer; it
does not return the `EBADF` error. -/
theorem dev_open_uninitialised (id : Nat) (t : Team) :
    dev_open ⟨id, none⟩ t 0 16 = OpenResult.null_deref ∧
    dev_open ⟨id, none⟩ t 0 16 ≠ OpenResult.err EBADF := by
  constructor
  · rfl
  · intro h
    have h2 : dev_open ⟨id, none⟩ t 0 16 = OpenResult.null_deref := rfl
    rw [h2] at h
    cases h

/-! ## Stores into `header.size` -/

/-- For `argn` within the capacity of `header.size`, every index stored by the
first loop lies inside the array. -/
theorem dev_run_stores_in_bounds (cfg : Config) (env : Fabric) (path : Nat)
    (start size argn : Int) (args : Nat → p_arg_t) (hacc : RangeAccepted start size)
    (hargn : argn ≤ cfg.header_capacity) :
    ∀ s ∈ (dev_run cfg env (some ⟨true⟩) path start size argn args).stores,
      0 ≤ s.1 ∧ s.1 < cfg.header_capacity := by
  rw [dev_run_stores cfg env path start size argn args hacc]
  intro s hs
  unfold headerStores at hs
  obtain ⟨i, hi, rfl⟩ := List.mem_map.mp hs
  have := (mem_forRange 0 argn i).mp hi
  simp only
  omega

/-- C10 (the code at the failing input): with `argn` one more than the number
of entries of `header.size`, a call on the valid range `[0, 1)` of an opened
device is not rejected before the first loop: the loop stores
`header.size[capacity]`, one past the end of the array. -/
theorem dev_run_header_store_past_capacity (cfg : Config) (env : Fabric) (path : Nat)
    (args : Nat → p_arg_t) :
    ((cfg.header_capacity : Int), (args cfg.header_capacity).size) ∈
      (dev_run cfg env (some ⟨true⟩) path 0 1 ((cfg.header_capacity : Int) + 1) args).stores := by
  have hacc : RangeAccepted 0 1 := by decide
  rw [dev_run_stores cfg env path 0 1 _ args hacc]
  unfold headerStores
  refine List.mem_map.mpr ⟨(cfg.header_capacity : Int), ?_, ?_⟩
  · rw [mem_forRange]
    omega
  · simp

/-! ## Failure of the packing block -/

/-- C4: when a call that has passed the range and open tests fails in the
packing block (the computed `argssize` exceeds the ceiling, or `e_alloc` does
not succeed), `dev_run` returns the error `-ENOMEM` and has issued no `e_load`,
no `e_write` at all (so no status word, no argument block, no `argsoffset`) and
no `e_start`. -/
theorem dev_run_pack_failure_no_effects (cfg : Config) (env : Fabric) (path : Nat)
    (start size argn : Int) (args : Nat → p_arg_t)
    (hacc : RangeAccepted start size)
    (hfail : cfg.EPIPHANY_DEV_MAX_ARGS_SIZE < argssize cfg argn args ∨
      env.e_alloc (allocBase cfg argn args) (totsize cfg argn args) = false) :
    (dev_run cfg env (some ⟨true⟩) path start size argn args).ret = -ENOMEM ∧
    (∀ p r c, FabricOp.e_load p r c ∉
      (dev_run cfg env (some ⟨true⟩) path start size argn args).ops) ∧
    (∀ rg off data len, FabricOp.e_write rg off data len ∉
      (dev_run cfg env (some ⟨true⟩) path start size argn args).ops) ∧
    (∀ r c, FabricOp.e_start r c ∉
      (dev_run cfg env (some ⟨true⟩) path start size argn args).ops) := by
  by_cases hbig : cfg.EPIPHANY_DEV_MAX_ARGS_SIZE < argssize cfg argn args
  · rw [dev_run_too_large cfg env path start size argn args hacc hbig]
    simp
  · have halloc : env.e_alloc (allocBase cfg argn args) (totsize cfg argn args) = false := by
      rcases hfail with h | h
      · exact absurd h hbig
      · exact h
    rw [dev_run_alloc_failed cfg env path start size argn args hacc (Nat.not_lt.mp hbig) halloc]
    simp

/-- Instance on the sample configuration: one argument of 4097 bytes on the full grid. -/
theorem dev_run_pack_failure_no_effects_witness :
    RangeAccepted 0 16 ∧
    (sampleConfig.EPIPHANY_DEV_MAX_ARGS_SIZE < argssize sampleConfig 1 (fun _ => ⟨0, 4097⟩) ∨
      okFabric.e_alloc (allocBase sampleConfig 1 (fun _ => ⟨0, 4097⟩))
        (totsize sampleConfig 1 (fun _ => ⟨0, 4097⟩)) = false) ∧
    ((dev_run sampleConfig okFabric (some ⟨true⟩) 7 0 16 1 (fun _ => ⟨0, 4097⟩)).ret = -ENOMEM ∧
    (∀ p r c, FabricOp.e_load p r c ∉
      (dev_run sampleConfig okFabric (some ⟨true⟩) 7 0 16 1 (fun _ => ⟨0, 4097⟩)).ops) ∧
    (∀ rg off data len, FabricOp.e_write rg off data len ∉
      (dev_run sampleConfig okFabric (some ⟨true⟩) 7 0 16 1 (fun _ => ⟨0, 4097⟩)).ops) ∧
    (∀ r c, FabricOp.e_start r c ∉
      (dev_run sampleConfig okFabric (some ⟨true⟩) 7 0 16 1 (fun _ => ⟨0, 4097⟩)).ops)) :=
  ⟨by decide, Or.inl (by decide),
    dev_run_pack_failure_no_effects sampleConfig okFabric 7 0 16 1 (fun _ => ⟨0, 4097⟩)
      (by decide) (Or.inl (by decide))⟩

/-! ## The three launch phases -/

theorem wrapInt_le_of_nonneg (x : Int) (h : 0 ≤ x) : wrapInt x ≤ x := by
  unfold wrapInt wrapSigned
  norm_num
  omega

/-- Every core index visited by the launch loops of an accepted call lies in
the requested range and in the grid. -/
theorem cores_in_range (start size i : Int) (hacc : RangeAccepted start size)
    (hi : i ∈ forRange start (wrapInt (start + size))) :
    start ≤ i ∧ i < start + size ∧ 0 ≤ i ∧ i < 16 := by
  unfold RangeAccepted at hacc
  have hm := (mem_forRange _ _ _).mp hi
  have hw := wrapInt_le_of_nonneg (start + size) (by omega)
  omega

/-- C2: for a call that passes validation and packing and whose loads and
starts all succeed, `dev_run` returns 0 and the fabric calls after the packing
block are exactly: `e_load` on `(i / 4, i % 4)` for each core `i` of the loop
range in increasing order, then the 4-byte write of `STATUS_SCHEDULED` at byte
offset `status + 4 * i` of the control region for the same `i` in order, then
`e_start` on `(i / 4, i % 4)` for the same `i` in order.  Every index visited
lies in `[start, start + size)` and in `[0, 16)`, and for a range inside the
grid the indices are exactly `start, start + 1, ..., start + size - 1`. -/
theorem dev_run_three_phases (cfg : Config) (env : Fabric) (path : Nat)
    (start size argn : Int) (args : Nat → p_arg_t)
    (hacc : RangeAccepted start size) (hp : Packed cfg env argn args)
    (hload : ∀ i ∈ forRange start (wrapInt (start + size)),
      env.e_load path (i / 4) (i % 4) = true)
    (hstart : ∀ i ∈ forRange start (wrapInt (start + size)),
      env.e_start (i / 4) (i % 4) = true) :
    (dev_run cfg env (some ⟨true⟩) path start size argn args).ret = 0 ∧
    (dev_run cfg env (some ⟨true⟩) path start size argn args).ops =
      packOps cfg argn args ++
      (forRange start (wrapInt (start + size))).map
        (fun i => FabricOp.e_load path (i / 4) (i % 4)) ++
      (forRange start (wrapInt (start + size))).map
        (fun i => FabricOp.e_write Region.ctrl ((cfg.status_offset : Int) + 4 * i)
          (Payload.word cfg.STATUS_SCHEDULED) 4) ++
      (forRange start (wrapInt (start + size))).map
        (fun i => FabricOp.e_start (i / 4) (i % 4)) ∧
    (∀ i ∈ forRange start (wrapInt (start + size)),
      start ≤ i ∧ i < start + size ∧ 0 ≤ i ∧ i < 16) ∧
    (start + size ≤ 16 →
      forRange start (wrapInt (start + size)) =
        List.map (fun (k : Nat) => start + (k : Int)) (List.range size.toNat)) := by
  have hin := fun i hi => cores_in_range start size i hacc hi
  have hdiv : ∀ i ∈ forRange start (wrapInt (start + size)),
      i.tdiv 4 = i / 4 ∧ i.tmod 4 = i % 4 := by
    intro i hi
    have h0 := (hin i hi).2.2.1
    exact ⟨Int.tdiv_eq_ediv h0 (by decide), Int.tmod_eq_emod h0 (by decide)⟩
  have hl := loadLoop_all_ok env path (forRange start (wrapInt (start + size)))
    (fun i hi => by rw [(hdiv i hi).1, (hdiv i hi).2]; exact hload i hi)
  have hs := startLoop_all_ok env (forRange start (wrapInt (start + size)))
    (fun i hi => by rw [(hdiv i hi).1, (hdiv i hi).2]; exact hstart i hi)
  have hres := dev_run_packed cfg env path start size argn args hacc hp
  unfold launchResult at hres
  simp only [hl, hs] at hres
  simp only [Bool.true_eq_false, if_false] at hres
  have e1 : (forRange start (wrapInt (start + size))).map
      (fun i => FabricOp.e_load path (i.tdiv 4) (i.tmod 4)) =
      (forRange start (wrapInt (start + size))).map
        (fun i => FabricOp.e_load path (i / 4) (i % 4)) := by
    apply List.map_congr_left
    intro i hi
    rw [(hdiv i hi).1, (hdiv i hi).2]
  have e2 : (forRange start (wrapInt (start + size))).map (markOp cfg) =
      (forRange start (wrapInt (start + size))).map
        (fun i => FabricOp.e_write Region.ctrl ((cfg.status_offset : Int) + 4 * i)
          (Payload.word cfg.STATUS_SCHEDULED) 4) := by
    apply List.map_congr_left
    intro i _
    unfold markOp
    rw [mul_comm i 4]
  have e3 : (forRange start (wrapInt (start + size))).map
      (fun i => FabricOp.e_start (i.tdiv 4) (i.tmod 4)) =
      (forRange start (wrapInt (start + size))).map
        (fun i => FabricOp.e_start (i / 4) (i % 4)) := by
    apply List.map_congr_left
    intro i hi
    rw [(hdiv i hi).1, (hdiv i hi).2]
  rw [e1, e2, e3] at hres
  refine ⟨?_, ?_, hin, ?_⟩
  · rw [hres]
  · rw [hres]
  · intro h16
    unfold RangeAccepted at hacc
    have hw : wrapInt (start + size) = start + size :=
      wrapInt_of_range _ (by omega) (by omega)
    rw [hw]
    unfold forRange
    have : (start + size - start).toNat = size.toNat := by
      congr 1
      omega
    rw [this]

/-- Instance on the sample configuration: cores 5 and 6, no arguments. -/
theorem dev_run_three_phases_witness :
    RangeAccepted 5 2 ∧ Packed sampleConfig okFabric 0 (fun _ => ⟨0, 0⟩) ∧
    (∀ i ∈ forRange 5 (wrapInt (5 + 2)), okFabric.e_load 7 (i / 4) (i % 4) = true) ∧
    (∀ i ∈ forRange 5 (wrapInt (5 + 2)), okFabric.e_start (i / 4) (i % 4) = true) ∧
    ((dev_run sampleConfig okFabric (some ⟨true⟩) 7 5 2 0 (fun _ => ⟨0, 0⟩)).ret = 0 ∧
    (dev_run sampleConfig okFabric (some ⟨true⟩) 7 5 2 0 (fun _ => ⟨0, 0⟩)).ops =
      packOps sampleConfig 0 (fun _ => ⟨0, 0⟩) ++
      (forRange 5 (wrapInt (5 + 2))).map
        (fun i => FabricOp.e_load 7 (i / 4) (i % 4)) ++
      (forRange 5 (wrapInt (5 + 2))).map
        (fun i => FabricOp.e_write Region.ctrl ((sampleConfig.status_offset : Int) + 4 * i)
          (Payload.word sampleConfig.STATUS_SCHEDULED) 4) ++
      (forRange 5 (wrapInt (5 + 2))).map
        (fun i => FabricOp.e_start (i / 4) (i % 4)) ∧
    (∀ i ∈ forRange 5 (wrapInt (5 + 2)),
      (5 : Int) ≤ i ∧ i < 5 + 2 ∧ 0 ≤ i ∧ i < 16) ∧
    ((5 : Int) + 2 ≤ 16 →
      forRange 5 (wrapInt (5 + 2)) =
        List.map (fun (k : Nat) => (5 : Int) + (k : Int)) (List.range (2 : Int).toNat))) :=
  ⟨by decide, by decide, fun _ _ => rfl, fun _ _ => rfl,
    dev_run_three_phases sampleConfig okFabric 7 5 2 0 (fun _ => ⟨0, 0⟩)
      (by decide) (by decide) (fun _ _ => rfl) (fun _ _ => rfl)⟩

/-! ## Arithmetic of the packing block -/

/-- Masking with `~7` in `size_t` clears the three low bits. -/
theorem and_not_seven (w x : Nat) (hw : 3 ≤ w) (hx : x < 2 ^ w) :
    x &&& (2 ^ w - 8) = x / 8 * 8 := by
  have hmask : 2 ^ w - 8 = (2 ^ (w - 3) - 1) <<< 3 := by
    rw [Nat.shiftLeft_eq]
    obtain ⟨n, rfl⟩ : ∃ n, w = n + 3 := ⟨w - 3, by omega⟩
    have : 2 ^ (n + 3) = 2 ^ n * 8 := by rw [pow_add]; norm_num
    simp only [Nat.add_sub_cancel]
    rw [this, Nat.sub_mul]
  have hdiv : x / 8 * 8 = (x >>> 3) <<< 3 := by
    rw [Nat.shiftLeft_eq, Nat.shiftRight_eq_div_pow]
  rw [hmask, hdiv]
  apply Nat.eq_of_testBit_eq
  intro i
  rw [Nat.testBit_and, Nat.testBit_shiftLeft, Nat.testBit_shiftLeft, Nat.testBit_shiftRight,
    Nat.testBit_two_pow_sub_one]
  by_cases h3 : i ≥ 3
  · have e : 3 + (i - 3) = i := by omega
    rw [e]
    by_cases hi : i < w
    · have : i - 3 < w - 3 := by omega
      simp [h3, this]
    · have hlt : x < 2 ^ i :=
        lt_of_lt_of_le hx (Nat.pow_le_pow_right (by decide) (by omega))
      have hb : x.testBit i = false := Nat.testBit_lt_two_pow hlt
      have : ¬ (i - 3 < w - 3) := by omega
      simp [h3, this, hb]
  · simp [h3]

/-- Without wrap-around `alignUp8` is rounding up to a multiple of 8. -/
theorem alignUp8_eq (cfg : Config) (t : Nat) (hw : 3 ≤ cfg.sizeBits)
    (ht : t + 7 < 2 ^ cfg.sizeBits) : alignUp8 cfg t = (t + 7) / 8 * 8 := by
  unfold alignUp8
  rw [Nat.mod_eq_of_lt ht]
  exact and_not_seven _ _ hw ht

theorem sumSizes_eq (cfg : Config) (args : Nat → p_arg_t) (l : List Int) (acc : Nat) :
    sumSizes cfg args l acc % 2 ^ cfg.sizeBits =
      (acc + (l.map (fun i => (args i.toNat).size)).sum) % 2 ^ cfg.sizeBits := by
  induction l generalizing acc with
  | nil => simp [sumSizes]
  | cons i rest ih =>
    simp only [sumSizes, List.map_cons, List.sum_cons]
    rw [ih]
    rw [Nat.add_mod, Nat.mod_mod, ← Nat.add_mod, Nat.add_assoc]

theorem sumSizes_lt (cfg : Config) (args : Nat → p_arg_t) (l : List Int) (acc : Nat)
    (h : acc < 2 ^ cfg.sizeBits) : sumSizes cfg args l acc < 2 ^ cfg.sizeBits := by
  induction l generalizing acc with
  | nil => simpa [sumSizes] using h
  | cons i rest ih =>
    simp only [sumSizes]
    exact ih _ (Nat.mod_lt _ (by positivity))

/-- The `argssize` computed by the first loop is the sum of the argument
lengths reduced modulo `2 ^ sizeBits`. -/
theorem argssize_eq_mod (cfg : Config) (argn : Int) (args : Nat → p_arg_t) :
    argssize cfg argn args = payloadSize argn args % 2 ^ cfg.sizeBits := by
  unfold argssize payloadSize
  have h1 := sumSizes_eq cfg args (forRange 0 argn) 0
  have h2 := sumSizes_lt cfg args (forRange 0 argn) 0 (by positivity)
  rw [Nat.mod_eq_of_lt h2] at h1
  simpa using h1

theorem launchResult_ops (cfg : Config) (env : Fabric) (path : Nat) (start size argn : Int)
    (args : Nat → p_arg_t) :
    ∃ tail, (launchResult cfg env path start size argn args).ops = packOps cfg argn args ++ tail := by
  unfold launchResult
  simp only []
  split_ifs
  · exact ⟨_, rfl⟩
  · exact ⟨_, by simp only [List.append_assoc]; rfl⟩
  · exact ⟨_, by simp only [List.append_assoc]; rfl⟩

/-- Once the size test is passed on an opened device and an accepted range,
`dev_run` calls `e_alloc` for the argument block. -/
theorem dev_run_alloc_issued (cfg : Config) (env : Fabric) (path : Nat)
    (start size argn : Int) (args : Nat → p_arg_t) (hacc : RangeAccepted start size)
    (hfit : argssize cfg argn args ≤ cfg.EPIPHANY_DEV_MAX_ARGS_SIZE) :
    FabricOp.e_alloc Region.args (allocBase cfg argn args) (totsize cfg argn args) ∈
      (dev_run cfg env (some ⟨true⟩) path start size argn args).ops := by
  by_cases halloc : env.e_alloc (allocBase cfg argn args) (totsize cfg argn args) = false
  · rw [dev_run_alloc_failed cfg env path start size argn args hacc hfit halloc]
    simp
  · rw [dev_run_packed cfg env path start size argn args hacc ⟨hfit, by simpa using halloc⟩]
    obtain ⟨tail, ht⟩ := launchResult_ops cfg env path start size argn args
    rw [ht]
    simp [packOps]

/-- When the sum of the argument lengths is representable in `size_t`, the
size test of `dev_run` rejects the call (return `-ENOMEM` before any fabric
call) exactly when the sum exceeds `EPIPHANY_DEV_MAX_ARGS_SIZE`. -/
theorem dev_run_too_large_iff (cfg : Config) (env : Fabric) (path : Nat)
    (start size argn : Int) (args : Nat → p_arg_t) (hacc : RangeAccepted start size)
    (hrep : payloadSize argn args < 2 ^ cfg.sizeBits) :
    argssize cfg argn args = payloadSize argn args ∧
    (((dev_run cfg env (some ⟨true⟩) path start size argn args).ret = -ENOMEM ∧
      (dev_run cfg env (some ⟨true⟩) path start size argn args).ops = []) ↔
      cfg.EPIPHANY_DEV_MAX_ARGS_SIZE < payloadSize argn args) := by
  have hsz : argssize cfg argn args = payloadSize argn args := by
    rw [argssize_eq_mod, Nat.mod_eq_of_lt hrep]
  refine ⟨hsz, ?_, ?_⟩
  · rintro ⟨_, hops⟩
    by_contra hle
    have hfit : argssize cfg argn args ≤ cfg.EPIPHANY_DEV_MAX_ARGS_SIZE := by
      rw [hsz]; omega
    have := dev_run_alloc_issued cfg env path start size argn args hacc hfit
    rw [hops] at this
    simp at this
  · intro hbig
    rw [← hsz] at hbig
    rw [dev_run_too_large cfg env path start size argn args hacc hbig]
    exact ⟨rfl, rfl⟩

theorem forRange_zero_two : forRange 0 2 = [0, 1] := by decide

theorem payloadSize_hugeArgs (cfg : Config) (hw : 1 ≤ cfg.sizeBits) :
    payloadSize 2 (hugeArgs cfg) = 2 ^ cfg.sizeBits := by
  unfold payloadSize hugeArgs
  rw [forRange_zero_two]
  obtain ⟨n, hn⟩ : ∃ n, cfg.sizeBits = n + 1 := ⟨cfg.sizeBits - 1, by omega⟩
  rw [hn]
  simp [pow_succ]
  omega

/-- C3 (the code at the failing input): two arguments of `2 ^ (sizeBits - 1)`
bytes each are well-typed `size_t` lengths whose sum `2 ^ sizeBits` exceeds the
ceiling, but the `argssize` computed in `size_t` is 0, the size test passes and
`dev_run` goes on to call `e_alloc`. -/
theorem dev_run_size_check_wraps (cfg : Config) (env : Fabric) (path : Nat)
    (start size : Int) (hacc : RangeAccepted start size) (hw : 1 ≤ cfg.sizeBits)
    (hmax : cfg.EPIPHANY_DEV_MAX_ARGS_SIZE < 2 ^ cfg.sizeBits) :
    ArgsWellTyped cfg (hugeArgs cfg) ∧
    cfg.EPIPHANY_DEV_MAX_ARGS_SIZE < payloadSize 2 (hugeArgs cfg) ∧
    argssize cfg 2 (hugeArgs cfg) = 0 ∧
    FabricOp.e_alloc Region.args (allocBase cfg 2 (hugeArgs cfg)) (totsize cfg 2 (hugeArgs cfg)) ∈
      (dev_run cfg env (some ⟨true⟩) path start size 2 (hugeArgs cfg)).ops := by
  have hpay := payloadSize_hugeArgs cfg hw
  have hz : argssize cfg 2 (hugeArgs cfg) = 0 := by
    rw [argssize_eq_mod, hpay, Nat.mod_self]
  refine ⟨?_, ?_, hz, ?_⟩
  · intro i
    unfold hugeArgs
    exact Nat.pow_lt_pow_right (by decide) (by omega)
  · rw [hpay]; exact hmax
  · exact dev_run_alloc_issued cfg env path start size 2 (hugeArgs cfg) hacc (by rw [hz]; omega)

/-- Instance on the sample configuration (32-bit `size_t`): two arguments of `2 ^ 31` bytes. -/
theorem dev_run_size_check_wraps_witness :
    RangeAccepted 0 16 ∧ 1 ≤ sampleConfig.sizeBits ∧
    sampleConfig.EPIPHANY_DEV_MAX_ARGS_SIZE < 2 ^ sampleConfig.sizeBits ∧
    (ArgsWellTyped sampleConfig (hugeArgs sampleConfig) ∧
    sampleConfig.EPIPHANY_DEV_MAX_ARGS_SIZE < payloadSize 2 (hugeArgs sampleConfig) ∧
    argssize sampleConfig 2 (hugeArgs sampleConfig) = 0 ∧
    FabricOp.e_alloc Region.args (allocBase sampleConfig 2 (hugeArgs sampleConfig))
        (totsize sampleConfig 2 (hugeArgs sampleConfig)) ∈
      (dev_run sampleConfig okFabric (some ⟨true⟩) 7 0 16 2 (hugeArgs sampleConfig)).ops) :=
  ⟨by decide, by decide, by decide,
    dev_run_size_check_wraps sampleConfig okFabric 7 0 16 (by decide) (by decide) (by decide)⟩

/-! ## The value recorded in `argsoffset` -/

theorem ctrlWrites_append (a b : List FabricOp) :
    ctrlWrites (a ++ b) = ctrlWrites a ++ ctrlWrites b := by
  induction a with
  | nil => rfl
  | cons op rest ih =>
    cases op with
    | e_alloc r o s => simpa [ctrlWrites] using ih
    | e_write r o d l =>
      cases r with
      | ctrl => simp [ctrlWrites, ih]
      | args => simpa [ctrlWrites] using ih
    | e_load p r c => simpa [ctrlWrites] using ih
    | e_start r c => simpa [ctrlWrites] using ih

theorem ctrlWrites_writeArgs (cfg : Config) (args : Nat → p_arg_t) (l : List Int) (offs : Int) :
    ctrlWrites (writeArgs cfg args l offs) = [] := by
  induction l generalizing offs with
  | nil => rfl
  | cons i rest ih => simp [writeArgs, ctrlWrites, ih]

theorem ctrlWrites_packOps (cfg : Config) (argn : Int) (args : Nat → p_arg_t) :
    ctrlWrites (packOps cfg argn args) =
      [((cfg.argsoffset_offset : Int), Payload.word (totsize cfg argn args), cfg.sizeBits / 8)] := by
  unfold packOps
  simp [ctrlWrites, ctrlWrites_append, ctrlWrites_writeArgs]

/-- With sane argument-area constants, a block that passes the size test is
allocated `totsize` bytes below `ARGS_MEM_END_OFFSET`. -/
theorem allocBase_add_totsize (cfg : Config) (argn : Int) (args : Nat → p_arg_t)
    (hA : cfg.ArgsArea) (hfit : argssize cfg argn args ≤ cfg.EPIPHANY_DEV_MAX_ARGS_SIZE) :
    allocBase cfg argn args + totsize cfg argn args = cfg.ARGS_MEM_END_OFFSET := by
  obtain ⟨h3, _, hsz, _, hend, hendlt⟩ := hA
  have htot : totsize cfg argn args =
      (cfg.header_bytes + argssize cfg argn args + 7) / 8 * 8 := by
    unfold totsize
    rw [Nat.mod_eq_of_lt (by omega), alignUp8_eq cfg _ h3 (by omega)]
  unfold allocBase
  have hle : totsize cfg argn args ≤ cfg.ARGS_MEM_END_OFFSET := by rw [htot]; omega
  have e : cfg.ARGS_MEM_END_OFFSET + 2 ^ cfg.sizeBits - totsize cfg argn args =
      (cfg.ARGS_MEM_END_OFFSET - totsize cfg argn args) + 2 ^ cfg.sizeBits := by omega
  rw [e, Nat.add_mod_right, Nat.mod_eq_of_lt (by omega)]
  omega

/-- C6 (amended): when validation and packing succeed, the fabric calls of
`dev_run` start with the packing block; that block allocates the argument
region at `allocBase` with `totsize` bytes and its only write into the control
region stores, at the offset of `argsoffset` and with `sizeof(size_t)` bytes,
the value of `totsize`.  With sane argument-area constants
`allocBase + totsize = ARGS_MEM_END_OFFSET`: the value recorded is the byte
offset of the block just allocated measured down from `ARGS_MEM_END_OFFSET`. -/
theorem dev_run_records_totsize (cfg : Config) (env : Fabric) (path : Nat)
    (start size argn : Int) (args : Nat → p_arg_t)
    (hacc : RangeAccepted start size) (hp : Packed cfg env argn args) :
    (∃ tail, (dev_run cfg env (some ⟨true⟩) path start size argn args).ops =
      packOps cfg argn args ++ tail) ∧
    (packOps cfg argn args).head? =
      some (FabricOp.e_alloc Region.args (allocBase cfg argn args) (totsize cfg argn args)) ∧
    ctrlWrites (packOps cfg argn args) =
      [((cfg.argsoffset_offset : Int), Payload.word (totsize cfg argn args), cfg.sizeBits / 8)] ∧
    (cfg.ArgsArea →
      allocBase cfg argn args + totsize cfg argn args = cfg.ARGS_MEM_END_OFFSET) := by
  refine ⟨?_, ?_, ctrlWrites_packOps cfg argn args, ?_⟩
  · rw [dev_run_packed cfg env path start size argn args hacc hp]
    exact launchResult_ops cfg env path start size argn args
  · simp [packOps]
  · intro hA
    exact allocBase_add_totsize cfg argn args hA hp.1

/-- Instance on the sample configuration: one argument of 10 bytes gives a
block of 56 bytes at offset `16777216 - 56`, and 56 is the value stored in
`argsoffset`. -/
theorem dev_run_records_totsize_witness :
    RangeAccepted 0 16 ∧ Packed sampleConfig okFabric 1 (fun _ => ⟨0, 10⟩) ∧
    sampleConfig.ArgsArea ∧
    totsize sampleConfig 1 (fun _ => ⟨0, 10⟩) = 56 ∧
    allocBase sampleConfig 1 (fun _ => ⟨0, 10⟩) = 16777216 - 56 ∧
    ((∃ tail, (dev_run sampleConfig okFabric (some ⟨true⟩) 7 0 16 1 (fun _ => ⟨0, 10⟩)).ops =
      packOps sampleConfig 1 (fun _ => ⟨0, 10⟩) ++ tail) ∧
    (packOps sampleConfig 1 (fun _ => ⟨0, 10⟩)).head? =
      some (FabricOp.e_alloc Region.args (allocBase sampleConfig 1 (fun _ => ⟨0, 10⟩))
        (totsize sampleConfig 1 (fun _ => ⟨0, 10⟩))) ∧
    ctrlWrites (packOps sampleConfig 1 (fun _ => ⟨0, 10⟩)) =
      [((sampleConfig.argsoffset_offset : Int),
        Payload.word (totsize sampleConfig 1 (fun _ => ⟨0, 10⟩)), sampleConfig.sizeBits / 8)] ∧
    (sampleConfig.ArgsArea →
      allocBase sampleConfig 1 (fun _ => ⟨0, 10⟩) + totsize sampleConfig 1 (fun _ => ⟨0, 10⟩) =
        sampleConfig.ARGS_MEM_END_OFFSET)) :=
  ⟨by decide, by decide, by decide, by decide, by decide,
    dev_run_records_totsize sampleConfig okFabric 7 0 16 1 (fun _ => ⟨0, 10⟩)
      (by decide) (by decide)⟩

/-- C6 (the claim as stated fails): on the sample configuration, a call on the
full grid with one argument of 10 bytes returns 0; the argument block is
allocated at byte offset 16777160 with 56 bytes, and the only write at the
offset of `argsoffset` (64) stores the value 56, not the block offset
16777160. -/
theorem dev_run_argsoffset_not_block_offset :
    (dev_run sampleConfig okFabric (some ⟨true⟩) 7 0 16 1 (fun _ => ⟨0, 10⟩)).ret = 0 ∧
    FabricOp.e_alloc Region.args 16777160 56 ∈
      (dev_run sampleConfig okFabric (some ⟨true⟩) 7 0 16 1 (fun _ => ⟨0, 10⟩)).ops ∧
    (ctrlWrites
      (dev_run sampleConfig okFabric (some ⟨true⟩) 7 0 16 1 (fun _ => ⟨0, 10⟩)).ops).filter
        (fun w => w.1 = 64) = [(64, Payload.word 56, 4)] ∧
    Payload.word 56 ≠ Payload.word 16777160 := by
  refine ⟨by decide, by decide, by decide, by decide⟩

/-! ## Layout of the argument block -/

theorem argWrites_append (a b : List FabricOp) :
    argWrites (a ++ b) = argWrites a ++ argWrites b := by
  induction a with
  | nil => rfl
  | cons op rest ih =>
    cases op with
    | e_alloc r o s => simpa [argWrites] using ih
    | e_write r o d l =>
      cases r with
      | ctrl => simpa [argWrites] using ih
      | args => simp [argWrites, ih]
    | e_load p r c => simpa [argWrites] using ih
    | e_start r c => simpa [argWrites] using ih

/-- Extents of consecutive writes of the given lengths starting at `off`. -/
theorem argWrites_writeArgs (cfg : Config) (args : Nat → p_arg_t) (l : List Int) (off : Int)
    (hb : 1 ≤ cfg.offBits) (h0 : 0 ≤ off)
    (hfit : off + ((l.map (fun i => (args i.toNat).size)).sum : Nat) < 2 ^ (cfg.offBits - 1)) :
    argWrites (writeArgs cfg args l off) =
      layoutFrom off (l.map (fun i => (args i.toNat).size)) := by
  induction l generalizing off with
  | nil => rfl
  | cons i rest ih =>
    simp only [List.map_cons, List.sum_cons, Nat.cast_add] at hfit
    have hpos : (0 : Int) ≤ (((rest.map (fun i => (args i.toNat).size)).sum : Nat) : Int) :=
      Int.natCast_nonneg _
    have hs : (0 : Int) ≤ ((args i.toNat).size : Int) := Int.natCast_nonneg _
    have hP : (0 : Int) < 2 ^ (cfg.offBits - 1) := by positivity
    have hwrap : wrapSigned cfg.offBits (off + ((args i.toNat).size : Int)) =
        off + ((args i.toNat).size : Int) :=
      wrapSigned_of_range _ _ hb (by omega) (by omega)
    simp only [writeArgs, argWrites, List.map_cons, layoutFrom, hwrap]
    rw [ih (off + ((args i.toNat).size : Int)) (by omega) (by omega)]

theorem layoutFrom_append (off : Int) (a b : List Nat) :
    layoutFrom off (a ++ b) = layoutFrom off a ++ layoutFrom (off + (a.sum : Nat)) b := by
  induction a generalizing off with
  | nil => simp [layoutFrom]
  | cons s rest ih =>
    have e : off + ((s : Int) + ((rest.sum : Nat) : Int)) = off + (s : Int) + ((rest.sum : Nat) : Int) := by
      ring
    simp only [List.cons_append, layoutFrom, List.sum_cons, Nat.cast_add, List.cons.injEq,
      true_and]
    rw [e]
    exact ih (off + (s : Int))

theorem layoutFrom_range (off : Int) (f : Nat → Nat) (n : Nat) :
    layoutFrom off ((List.range n).map f) =
      (List.range n).map (fun k => (off + (((List.range k).map f).sum : Nat), f k)) := by
  induction n with
  | zero => rfl
  | succ n ih =>
    rw [List.range_succ, List.map_append, List.map_append, layoutFrom_append, ih]
    simp [layoutFrom]

theorem forRange_zero (argn : Int) :
    forRange 0 argn = List.map (fun (k : Nat) => (k : Int)) (List.range argn.toNat) := by
  unfold forRange
  simp

theorem payloadSize_natCast (n : Nat) (args : Nat → p_arg_t) :
    payloadSize (n : Int) args = ((List.range n).map (fun j => (args j).size)).sum := by
  unfold payloadSize
  rw [forRange_zero]
  simp [List.map_map, Function.comp_def]

theorem payloadSize_eq (argn : Int) (args : Nat → p_arg_t) :
    payloadSize argn args = ((List.range argn.toNat).map (fun j => (args j).size)).sum := by
  unfold payloadSize
  rw [forRange_zero]
  simp [List.map_map, Function.comp_def]

/-- Under the sanity conditions on the argument-area constants, an argument
list whose lengths sum to at most the ceiling gets the reference layout:
`totsize` is the least multiple of 8 that is at least header plus payload, the
region is allocated with `totsize` bytes ending at `ARGS_MEM_END_OFFSET`, the
header is written at offset 0 and argument `i` with its own length at offset
`header_bytes` plus the lengths of the arguments before it; every write ends at
or before `totsize`. -/
theorem pack_layout (cfg : Config) (argn : Int) (args : Nat → p_arg_t)
    (hA : cfg.ArgsArea) (hfit : payloadSize argn args ≤ cfg.EPIPHANY_DEV_MAX_ARGS_SIZE) :
    argssize cfg argn args = payloadSize argn args ∧
    8 ∣ totsize cfg argn args ∧
    cfg.header_bytes + payloadSize argn args ≤ totsize cfg argn args ∧
    (∀ m, 8 ∣ m → cfg.header_bytes + payloadSize argn args ≤ m → totsize cfg argn args ≤ m) ∧
    allocBase cfg argn args + totsize cfg argn args = cfg.ARGS_MEM_END_OFFSET ∧
    argWrites (packOps cfg argn args) =
      (0, cfg.header_bytes) ::
        (forRange 0 argn).map
          (fun i => ((cfg.header_bytes : Int) + (payloadSize i args : Nat), (args i.toNat).size)) ∧
    (∀ w ∈ argWrites (packOps cfg argn args),
      0 ≤ w.1 ∧ w.1 + (w.2 : Nat) ≤ (totsize cfg argn args : Nat)) := by
  obtain ⟨h3, hob, hsz, hoff, hend, hendlt⟩ := hA
  have hsize : argssize cfg argn args = payloadSize argn args := by
    rw [argssize_eq_mod, Nat.mod_eq_of_lt (by omega)]
  have htot : totsize cfg argn args = (cfg.header_bytes + payloadSize argn args + 7) / 8 * 8 := by
    unfold totsize
    rw [hsize, Nat.mod_eq_of_lt (by omega), alignUp8_eq cfg _ h3 (by omega)]
  have hbase : allocBase cfg argn args + totsize cfg argn args = cfg.ARGS_MEM_END_OFFSET := by
    unfold allocBase
    have hle : totsize cfg argn args ≤ cfg.ARGS_MEM_END_OFFSET := by rw [htot]; omega
    have e : cfg.ARGS_MEM_END_OFFSET + 2 ^ cfg.sizeBits - totsize cfg argn args =
        (cfg.ARGS_MEM_END_OFFSET - totsize cfg argn args) + 2 ^ cfg.sizeBits := by omega
    rw [e, Nat.add_mod_right, Nat.mod_eq_of_lt (by omega)]
    omega
  have hwr : argWrites (packOps cfg argn args) =
      (0, cfg.header_bytes) ::
        (forRange 0 argn).map
          (fun i => ((cfg.header_bytes : Int) + (payloadSize i args : Nat),
            (args i.toNat).size)) := by
    unfold packOps
    have hP : (0 : Int) < 2 ^ (cfg.offBits - 1) := by positivity
    have hoffI : ((cfg.header_bytes + cfg.EPIPHANY_DEV_MAX_ARGS_SIZE + 7 : Nat) : Int) <
        2 ^ (cfg.offBits - 1) := by exact_mod_cast hoff
    have hfitI : ((payloadSize argn args : Nat) : Int) ≤ (cfg.EPIPHANY_DEV_MAX_ARGS_SIZE : Nat) := by
      exact_mod_cast hfit
    push_cast at hoffI
    have hw0 : wrapSigned cfg.offBits (0 + (cfg.header_bytes : Int)) = (cfg.header_bytes : Int) := by
      rw [zero_add]
      exact wrapSigned_of_range _ _ hob (by omega) (by omega)
    rw [hw0]
    simp only [argWrites, argWrites_append, List.append_nil]
    rw [argWrites_writeArgs cfg args (forRange 0 argn) _ hob (by omega)
      (by unfold payloadSize at hfitI; omega)]
    rw [forRange_zero, List.map_map, List.map_map]
    have hcomp : ((fun i : Int => (args i.toNat).size) ∘ fun (k : Nat) => (k : Int)) =
        fun k => (args k).size := by
      funext k; simp
    rw [hcomp, layoutFrom_range]
    congr 1
    apply List.map_congr_left
    intro k _
    simp only [Function.comp_apply, Int.toNat_ofNat]
    rw [payloadSize_natCast]
  refine ⟨hsize, ?_, ?_, ?_, hbase, hwr, ?_⟩
  · rw [htot]; exact Dvd.intro_left _ rfl
  · rw [htot]; omega
  · intro m hm hle
    rw [htot]
    obtain ⟨q, rfl⟩ := hm
    omega
  · intro w hw
    rw [hwr] at hw
    rcases List.mem_cons.mp hw with rfl | hw
    · simp only
      constructor
      · exact le_refl _
      · have : cfg.header_bytes ≤ totsize cfg argn args := by rw [htot]; omega
        omega
    · obtain ⟨i, hi, rfl⟩ := List.mem_map.mp hw
      have hi2 := (mem_forRange 0 argn i).mp hi
      simp only
      obtain ⟨k, rfl⟩ : ∃ k : Nat, i = (k : Int) := ⟨i.toNat, by omega⟩
      have hk : k < argn.toNat := by omega
      have hpre : payloadSize (k : Int) args + (args k).size ≤ payloadSize argn args := by
        rw [payloadSize_natCast, payloadSize_eq]
        have hsplit : List.range argn.toNat =
            List.range (k + 1) ++ List.map (fun j => k + 1 + j) (List.range (argn.toNat - (k + 1))) := by
          have : argn.toNat = (k + 1) + (argn.toNat - (k + 1)) := by omega
          conv_lhs => rw [this, List.range_add]
        rw [hsplit, List.map_append, List.sum_append, List.range_succ, List.map_append,
          List.sum_append]
        simp
      have hle : cfg.header_bytes + payloadSize argn args ≤ totsize cfg argn args := by
        rw [htot]; omega
      simp only [Int.toNat_ofNat]
      constructor
      · positivity
      · omega

/-- C9 (the code at the failing input): for two arguments of
`2 ^ (sizeBits - 1)` bytes each the packing block succeeds whenever `e_alloc`
does, the computed `totsize` is below header plus payload, and `dev_run` writes
the first argument with its full length at offset `header_bytes`, a write that
ends beyond the `totsize` bytes allocated. -/
theorem dev_run_block_overrun (cfg : Config) (env : Fabric) (path : Nat)
    (start size : Int) (hacc : RangeAccepted start size) (hA : cfg.ArgsArea)
    (hw : 4 ≤ cfg.sizeBits)
    (halloc : env.e_alloc (allocBase cfg 2 (hugeArgs cfg)) (totsize cfg 2 (hugeArgs cfg)) = true) :
    Packed cfg env 2 (hugeArgs cfg) ∧
    ((cfg.header_bytes : Int), 2 ^ (cfg.sizeBits - 1)) ∈
      argWrites (dev_run cfg env (some ⟨true⟩) path start size 2 (hugeArgs cfg)).ops ∧
    totsize cfg 2 (hugeArgs cfg) < cfg.header_bytes + 2 ^ (cfg.sizeBits - 1) ∧
    totsize cfg 2 (hugeArgs cfg) < cfg.header_bytes + payloadSize 2 (hugeArgs cfg) := by
  obtain ⟨h3, hob, hsz, hoff, hend, hendlt⟩ := hA
  have hpay := payloadSize_hugeArgs cfg (by omega)
  have hz : argssize cfg 2 (hugeArgs cfg) = 0 := by
    rw [argssize_eq_mod, hpay, Nat.mod_self]
  have hp : Packed cfg env 2 (hugeArgs cfg) := ⟨by rw [hz]; omega, halloc⟩
  have htot : totsize cfg 2 (hugeArgs cfg) = (cfg.header_bytes + 7) / 8 * 8 := by
    unfold totsize
    rw [hz, Nat.add_zero, Nat.mod_eq_of_lt (by omega), alignUp8_eq cfg _ h3 (by omega)]
  have h8 : 8 ≤ 2 ^ (cfg.sizeBits - 1) := by
    have : 2 ^ 3 ≤ 2 ^ (cfg.sizeBits - 1) := Nat.pow_le_pow_right (by decide) (by omega)
    simpa using this
  have hlt : totsize cfg 2 (hugeArgs cfg) < cfg.header_bytes + 2 ^ (cfg.sizeBits - 1) := by
    rw [htot]; omega
  refine ⟨hp, ?_, hlt, ?_⟩
  · rw [dev_run_packed cfg env path start size 2 (hugeArgs cfg) hacc hp]
    obtain ⟨tail, ht⟩ := launchResult_ops cfg env path start size 2 (hugeArgs cfg)
    rw [ht, argWrites_append]
    apply List.mem_append_left
    have hoffI : ((cfg.header_bytes + cfg.EPIPHANY_DEV_MAX_ARGS_SIZE + 7 : Nat) : Int) <
        2 ^ (cfg.offBits - 1) := by exact_mod_cast hoff
    push_cast at hoffI
    have hw0 : wrapSigned cfg.offBits (0 + (cfg.header_bytes : Int)) = (cfg.header_bytes : Int) := by
      rw [zero_add]
      exact wrapSigned_of_range _ _ hob (by omega) (by omega)
    unfold packOps
    rw [hw0, forRange_zero_two]
    simp [argWrites, writeArgs, hugeArgs]
  · rw [hpay]
    have : 2 ^ (cfg.sizeBits - 1) ≤ 2 ^ cfg.sizeBits :=
      Nat.pow_le_pow_right (by decide) (by omega)
    omega

/-- Instance on the sample configuration (32-bit `size_t`): two arguments of `2 ^ 31` bytes. -/
theorem dev_run_block_overrun_witness :
    RangeAccepted 0 16 ∧ sampleConfig.ArgsArea ∧ 4 ≤ sampleConfig.sizeBits ∧
    okFabric.e_alloc (allocBase sampleConfig 2 (hugeArgs sampleConfig))
      (totsize sampleConfig 2 (hugeArgs sampleConfig)) = true ∧
    (Packed sampleConfig okFabric 2 (hugeArgs sampleConfig) ∧
    ((sampleConfig.header_bytes : Int), 2 ^ (sampleConfig.sizeBits - 1)) ∈
      argWrites (dev_run sampleConfig okFabric (some ⟨true⟩) 7 0 16 2 (hugeArgs sampleConfig)).ops ∧
    totsize sampleConfig 2 (hugeArgs sampleConfig) <
      sampleConfig.header_bytes + 2 ^ (sampleConfig.sizeBits - 1) ∧
    totsize sampleConfig 2 (hugeArgs sampleConfig) <
      sampleConfig.header_bytes + payloadSize 2 (hugeArgs sampleConfig)) :=
  ⟨by decide, by decide, by decide, rfl,
    dev_run_block_overrun sampleConfig okFabric 7 0 16 (by decide) (by decide) (by decide) rfl⟩

/-! ## The completion poller -/

theorem switchStatus_eq_true (cfg : Config) (w : Nat) (nw : Bool) :
    switchStatus cfg w nw = true ↔
      (nw = true ∨ w = cfg.STATUS_SCHEDULED ∨ w = cfg.STATUS_RUNNING) := by
  unfold switchStatus
  split_ifs with h1 h2
  · simp [h1]
  · simp [h2]
  · simp [h1, h2]

theorem scanStatus_eq_true (cfg : Config) (ctrl : StatusArray) (n i : Nat) (nw : Bool) :
    scanStatus cfg ctrl n i nw = true ↔
      (nw = true ∨ ∃ j : Fin 16, i ≤ j.val ∧ j.val < i + n ∧
        (ctrl j = cfg.STATUS_SCHEDULED ∨ ctrl j = cfg.STATUS_RUNNING)) := by
  induction n generalizing i nw with
  | zero =>
    simp only [scanStatus]
    constructor
    · intro h; exact Or.inl h
    · rintro (h | ⟨j, h1, h2, _⟩)
      · exact h
      · omega
  | succ n ih =>
    unfold scanStatus
    by_cases hi : i < 16
    · rw [dif_pos hi, ih, switchStatus_eq_true]
      constructor
      · rintro ((h | h) | ⟨j, h1, h2, h3⟩)
        · exact Or.inl h
        · exact Or.inr ⟨⟨i, hi⟩, le_refl _, by simp, h⟩
        · exact Or.inr ⟨j, by omega, by omega, h3⟩
      · rintro (h | ⟨j, h1, h2, h3⟩)
        · exact Or.inl (Or.inl h)
        · by_cases hj : j.val = i
          · have : j = ⟨i, hi⟩ := Fin.ext hj
            rw [this] at h3
            exact Or.inl (Or.inr h3)
          · exact Or.inr ⟨j, by omega, by omega, h3⟩
    · rw [dif_neg hi]
      constructor
      · intro h; exact Or.inl h
      · rintro (h | ⟨j, h1, _, _⟩)
        · exact h
        · have := j.isLt
          omega

/-- The scan of one snapshot sets `need_wait` exactly when some of the sixteen
words is SCHEDULED or RUNNING. -/
theorem scanStatus_busy (cfg : Config) (ctrl : StatusArray) :
    scanStatus cfg ctrl 16 0 false = true ↔ Busy cfg ctrl := by
  rw [scanStatus_eq_true]
  unfold Busy
  constructor
  · rintro (h | ⟨j, _, _, h⟩)
    · cases h
    · exact ⟨j, h⟩
  · rintro ⟨j, h⟩
    exact Or.inr ⟨j, Nat.zero_le _, by have := j.isLt; omega, h⟩

theorem waitOps_append (ops : List WaitOp) (n : Nat) :
    (ops ++ [WaitOp.e_read, WaitOp.usleep 1000]) ++ waitOps n = ops ++ waitOps (n + 1) := by
  simp [waitOps]

theorem waitLoop_returns (cfg : Config) (reads : Nat → StatusArray) (n : Nat) :
    ∀ (fuel k : Nat) (ops : List WaitOp), n < fuel →
      (∀ j, j < n → Busy cfg (reads (k + j))) → ¬ Busy cfg (reads (k + n)) →
      waitLoop cfg reads fuel k ops = some ⟨0, reads (k + n), ops ++ waitOps n⟩ := by
  induction n with
  | zero =>
    intro fuel k ops hf _ hidle
    obtain ⟨f, rfl⟩ : ∃ f, fuel = f + 1 := ⟨fuel - 1, by omega⟩
    have hs : scanStatus cfg (reads k) 16 0 false = false := by
      rw [← Bool.not_eq_true, scanStatus_busy]
      simpa using hidle
    simp [waitLoop, hs, waitOps]
  | succ n ih =>
    intro fuel k ops hf hbusy hidle
    obtain ⟨f, rfl⟩ : ∃ f, fuel = f + 1 := ⟨fuel - 1, by omega⟩
    have hb : scanStatus cfg (reads k) 16 0 false = true := by
      rw [scanStatus_busy]
      simpa using hbusy 0 (Nat.succ_pos _)
    have hstep := ih f (k + 1) (ops ++ [WaitOp.e_read, WaitOp.usleep 1000]) (by omega)
      (fun j hj => by
        have := hbusy (j + 1) (by omega)
        rwa [show k + 1 + j = k + (j + 1) by omega])
      (by rwa [show k + 1 + n = k + (n + 1) by omega])
    unfold waitLoop
    rw [if_neg (by simp [hb]), hstep, waitOps_append]
    rw [show k + 1 + n = k + (n + 1) by omega]

theorem waitLoop_still_polling (cfg : Config) (reads : Nat → StatusArray) (fuel : Nat) :
    ∀ (k : Nat) (ops : List WaitOp), (∀ j, j < fuel → Busy cfg (reads (k + j))) →
      waitLoop cfg reads fuel k ops = none := by
  induction fuel with
  | zero => intro k ops _; rfl
  | succ f ih =>
    intro k ops hbusy
    have hb : scanStatus cfg (reads k) 16 0 false = true := by
      rw [scanStatus_busy]
      simpa using hbusy 0 (Nat.succ_pos _)
    unfold waitLoop
    rw [if_neg (by simp [hb])]
    apply ih
    intro j hj
    have := hbusy (j + 1) (by omega)
    rwa [show k + 1 + j = k + (j + 1) by omega]

/-- A `dev_wait` that returns has returned on the first snapshot that is not
busy. -/
theorem waitLoop_some (cfg : Config) (reads : Nat → StatusArray) (fuel : Nat) :
    ∀ (k : Nat) (ops : List WaitOp) (r : WaitResult), waitLoop cfg reads fuel k ops = some r →
      ∃ n, n < fuel ∧ (∀ j, j < n → Busy cfg (reads (k + j))) ∧ ¬ Busy cfg (reads (k + n)) ∧
        r.ret = 0 ∧ r.ctrl = reads (k + n) ∧ r.ops = ops ++ waitOps n := by
  induction fuel with
  | zero => intro k ops r h; simp [waitLoop] at h
  | succ f ih =>
    intro k ops r h
    unfold waitLoop at h
    by_cases hs : scanStatus cfg (reads k) 16 0 false = false
    · rw [if_pos hs] at h
      have hr : r = ⟨0, reads k, ops ++ [WaitOp.e_read]⟩ := by
        injection h with h; exact h.symm
      refine ⟨0, Nat.succ_pos _, fun j hj => absurd hj (Nat.not_lt_zero _), ?_, ?_, ?_, ?_⟩
      · rw [Nat.add_zero, ← scanStatus_busy, hs]; simp
      · rw [hr]
      · rw [hr]; rfl
      · rw [hr]; rfl
    · rw [if_neg hs] at h
      obtain ⟨n, hn, hbusy, hidle, h1, h2, h3⟩ := ih (k + 1) _ r h
      refine ⟨n + 1, by omega, ?_, ?_, h1, ?_, ?_⟩
      · intro j hj
        rcases Nat.eq_zero_or_pos j with rfl | hpos
        · rw [Nat.add_zero, ← scanStatus_busy]
          simpa using hs
        · have := hbusy (j - 1) (by omega)
          rwa [show k + 1 + (j - 1) = k + j by omega] at this
      · rwa [show k + (n + 1) = k + 1 + n by omega]
      · rw [h2, show k + (n + 1) = k + 1 + n by omega]
      · rw [h3, waitOps_append]

theorem waitOps_counts (k : Nat) :
    (waitOps k).count WaitOp.e_read = k + 1 ∧ (waitOps k).count (WaitOp.usleep 1000) = k := by
  induction k with
  | zero => simp [waitOps]
  | succ k ih =>
    obtain ⟨h1, h2⟩ := ih
    constructor
    · simp [waitOps, List.count_cons, h1]
    · simp [waitOps, List.count_cons, h2]

/-- C7: let snapshot `k` be the first one delivered by the bulk read in which
none of the sixteen status words is SCHEDULED or RUNNING.  Then `dev_wait`
returns 0 on that snapshot, having made `k + 1` reads and slept once (1000 µs)
after each of the `k` earlier ones; within `k` iterations it has not returned;
whenever it returns, the snapshot it returned on has no SCHEDULED or RUNNING
word; and a word different from both leaves `need_wait` unchanged. -/
theorem dev_wait_returns_on_first_idle (cfg : Config) (reads : Nat → StatusArray) (k : Nat)
    (hidle : ¬ Busy cfg (reads k)) (hbusy : ∀ j, j < k → Busy cfg (reads j)) :
    (∀ fuel, k < fuel → dev_wait cfg reads fuel = some ⟨0, reads k, waitOps k⟩) ∧
    (∀ fuel, fuel ≤ k → dev_wait cfg reads fuel = none) ∧
    (∀ fuel r, dev_wait cfg reads fuel = some r → ¬ Busy cfg r.ctrl) ∧
    ((waitOps k).count WaitOp.e_read = k + 1 ∧ (waitOps k).count (WaitOp.usleep 1000) = k) ∧
    (∀ w nw, w ≠ cfg.STATUS_SCHEDULED → w ≠ cfg.STATUS_RUNNING →
      switchStatus cfg w nw = nw) := by
  refine ⟨?_, ?_, ?_, waitOps_counts k, ?_⟩
  · intro fuel hf
    have := waitLoop_returns cfg reads k fuel 0 [] hf
      (fun j hj => by simpa using hbusy j hj) (by simpa using hidle)
    simpa [dev_wait] using this
  · intro fuel hf
    unfold dev_wait
    apply waitLoop_still_polling
    intro j hj
    simpa using hbusy j (by omega)
  · intro fuel r hr
    obtain ⟨n, _, _, hn, _, hc, _⟩ := waitLoop_some cfg reads fuel 0 [] r hr
    rw [hc]
    exact hn
  · intro w nw h1 h2
    unfold switchStatus
    rw [if_neg h1, if_neg h2]

/-- Instance: core 5 is RUNNING in the first two snapshots and DONE from the third. -/
theorem dev_wait_returns_on_first_idle_witness :
    ¬ Busy sampleConfig (sampleBusyReads 2) ∧ (∀ j, j < 2 → Busy sampleConfig (sampleBusyReads j)) ∧
    ((∀ fuel, 2 < fuel →
      dev_wait sampleConfig sampleBusyReads fuel = some ⟨0, sampleBusyReads 2, waitOps 2⟩) ∧
    (∀ fuel, fuel ≤ 2 → dev_wait sampleConfig sampleBusyReads fuel = none) ∧
    (∀ fuel r, dev_wait sampleConfig sampleBusyReads fuel = some r → ¬ Busy sampleConfig r.ctrl) ∧
    ((waitOps 2).count WaitOp.e_read = 2 + 1 ∧ (waitOps 2).count (WaitOp.usleep 1000) = 2) ∧
    (∀ w nw, w ≠ sampleConfig.STATUS_SCHEDULED → w ≠ sampleConfig.STATUS_RUNNING →
      switchStatus sampleConfig w nw = nw)) :=
  have hidle : ¬ Busy sampleConfig (sampleBusyReads 2) := by
    rintro ⟨i, h⟩
    simp [sampleBusyReads, sampleConfig] at h
  have hbusy : ∀ j, j < 2 → Busy sampleConfig (sampleBusyReads j) := by
    intro j hj
    exact ⟨⟨5, by decide⟩, Or.inr (by simp [sampleBusyReads, sampleConfig, hj])⟩
  ⟨hidle, hbusy, dev_wait_returns_on_first_idle sampleConfig sampleBusyReads 2 hidle hbusy⟩

/-! ## Launch followed by wait -/

theorem live_of_steps (cfg : Config) (a b : Nat)
    (h : Relation.ReflTransGen (deviceStep cfg) a b) (ha : Live cfg a) : Live cfg b := by
  induction h with
  | refl => exact ha
  | tail _ hstep _ =>
    cases hstep with
    | started => exact Or.inr (Or.inl rfl)
    | finished => exact Or.inr (Or.inr rfl)

theorem devSteps_refl (cfg : Config) (s : StatusArray) : DevSteps cfg s s :=
  fun _ => Relation.ReflTransGen.refl

theorem devSteps_finishAll (cfg : Config) (s : StatusArray) :
    DevSteps cfg s (finishAll cfg s) := by
  intro i
  unfold finishAll
  by_cases h : s i = cfg.STATUS_SCHEDULED
  · rw [if_pos h, h]
    exact Relation.ReflTransGen.tail
      (Relation.ReflTransGen.single deviceStep.started) deviceStep.finished
  · rw [if_neg h]

/-- With an idle device, running the fabric calls leads to `applyOps`. -/
theorem exec_applyOps (cfg : Config) (ops : List FabricOp) (s : StatusArray) :
    Exec cfg ops s (applyOps cfg ops s) := by
  induction ops generalizing s with
  | nil => exact devSteps_refl cfg s
  | cons op rest ih => exact ⟨s, devSteps_refl cfg s, ih (applyOp cfg op s)⟩

theorem exec_keeps_live (cfg : Config) (i : Fin 16) (ops : List FabricOp) :
    ∀ (s s' : StatusArray), (∀ op ∈ ops, Gentle cfg i op) → Exec cfg ops s s' →
      Live cfg (s i) → Live cfg (s' i) := by
  induction ops with
  | nil =>
    intro s s' _ hex hl
    exact live_of_steps cfg _ _ (hex i) hl
  | cons op rest ih =>
    intro s s' hg hex hl
    obtain ⟨m, hm, hrest⟩ := hex
    have hlm : Live cfg (m i) := live_of_steps cfg _ _ (hm i) hl
    have hla : Live cfg (applyOp cfg op m i) := by
      rcases hg op (List.mem_cons_self _ _) m with h | h
      · rw [h]; exact hlm
      · rw [h]; exact Or.inl rfl
    exact ih _ _ (fun o ho => hg o (List.mem_cons_of_mem _ ho)) hrest hla

theorem exec_makes_live (cfg : Config) (i : Fin 16) (ops : List FabricOp) :
    ∀ (s s' : StatusArray), (∀ op ∈ ops, Gentle cfg i op) →
      (∃ op ∈ ops, ∀ t : StatusArray, applyOp cfg op t i = cfg.STATUS_SCHEDULED) →
      Exec cfg ops s s' → Live cfg (s' i) := by
  induction ops with
  | nil =>
    intro s s' _ hex _
    obtain ⟨op, hop, _⟩ := hex
    simp at hop
  | cons op rest ih =>
    intro s s' hg hset hex
    obtain ⟨m, _, hrest⟩ := hex
    obtain ⟨o, ho, hsets⟩ := hset
    rcases List.mem_cons.mp ho with rfl | hin'
    · have hla : Live cfg (applyOp cfg o m i) := by rw [hsets m]; exact Or.inl rfl
      exact exec_keeps_live cfg i rest _ _ (fun o' hin' => hg o' (List.mem_cons_of_mem _ hin'))
        hrest hla
    · exact ih _ _ (fun o' hmem => hg o' (List.mem_cons_of_mem _ hmem)) ⟨o, hin', hsets⟩ hrest

theorem gentle_markOp (cfg : Config) (i : Fin 16) (j : Int) : Gentle cfg i (markOp cfg j) := by
  intro s
  unfold markOp applyOp
  simp only [if_true]
  by_cases h : (cfg.status_offset : Int) + j * 4 = (cfg.status_offset : Int) + 4 * (i.val : Int)
  · right; rw [if_pos h]
  · left; rw [if_neg h]

theorem markOp_sets (cfg : Config) (i : Fin 16) (s : StatusArray) :
    applyOp cfg (markOp cfg (i.val : Int)) s i = cfg.STATUS_SCHEDULED := by
  unfold markOp applyOp
  simp only [if_true]
  rw [if_pos (by ring)]

theorem gentle_writeArgs (cfg : Config) (i : Fin 16) (args : Nat → p_arg_t) (l : List Int)
    (offs : Int) : ∀ op ∈ writeArgs cfg args l offs, Gentle cfg i op := by
  induction l generalizing offs with
  | nil => intro op hop; simp [writeArgs] at hop
  | cons k rest ih =>
    intro op hop
    unfold writeArgs at hop
    rcases List.mem_cons.mp hop with rfl | h
    · intro s; left; rfl
    · exact ih _ op h

theorem gentle_packOps (cfg : Config) (hl : cfg.CtrlLayout) (i : Fin 16) (argn : Int)
    (args : Nat → p_arg_t) : ∀ op ∈ packOps cfg argn args, Gentle cfg i op := by
  intro op hop
  unfold packOps at hop
  rcases List.mem_cons.mp hop with rfl | hop
  · intro s; left; rfl
  · rcases List.mem_cons.mp hop with rfl | hop
    · intro s; left; rfl
    · rcases List.mem_append.mp hop with h | h
      · exact gentle_writeArgs cfg i args _ _ op h
      · rw [List.mem_singleton] at h
        subst h
        intro s
        left
        unfold applyOp
        simp only
        by_cases h4 : cfg.sizeBits / 8 = 4
        · rw [if_pos h4]
          have hne : ¬ ((cfg.argsoffset_offset : Int) =
              (cfg.status_offset : Int) + 4 * (i.val : Int)) := by
            unfold Config.CtrlLayout at hl
            have := i.isLt
            omega
          show (if _ then _ else _) = _
          rw [if_neg hne]
        · rw [if_neg h4]

/-- A `dev_run` that returns 0 has passed validation and packing on an opened
device and has issued the packing block and the three complete phases. -/
theorem dev_run_ret_zero (cfg : Config) (env : Fabric) (d : Option epiphany_dev_data)
    (path : Nat) (start size argn : Int) (args : Nat → p_arg_t)
    (h : (dev_run cfg env d path start size argn args).ret = 0) :
    RangeAccepted start size ∧
    (dev_run cfg env d path start size argn args).ops =
      packOps cfg argn args ++
        (loadLoop env path (forRange start (wrapInt (start + size)))).1 ++
        (forRange start (wrapInt (start + size))).map (markOp cfg) ++
        (startLoop env (forRange start (wrapInt (start + size)))).1 := by
  by_cases hacc : RangeAccepted start size
  · refine ⟨hacc, ?_⟩
    revert h
    unfold dev_run
    rw [if_neg hacc.1, if_neg hacc.2]
    cases d with
    | none => simp [EBADF]
    | some data =>
      simp only [EINVAL, EBADF, ENOMEM, EIO]
      split_ifs <;> simp
  · rw [dev_run_range_rejected cfg env d path start size argn args hacc] at h
    simp [EINVAL] at h

/-- After a successful `dev_run` on a range inside the grid, only device
transitions being interleaved, every status word of the range is SCHEDULED,
RUNNING or DONE. -/
theorem launched_range_live (cfg : Config) (hl : cfg.CtrlLayout) (env : Fabric)
    (d : Option epiphany_dev_data) (path : Nat) (start size argn : Int) (args : Nat → p_arg_t)
    (hrange : 0 ≤ start ∧ 0 < size ∧ start + size ≤ 16)
    (hrun : (dev_run cfg env d path start size argn args).ret = 0)
    (s0 s1 : StatusArray)
    (hexec : Exec cfg (dev_run cfg env d path start size argn args).ops s0 s1)
    (i : Fin 16) (h1 : start ≤ (i.val : Int)) (h2 : (i.val : Int) < start + size) :
    Live cfg (s1 i) := by
  obtain ⟨_, hops⟩ := dev_run_ret_zero cfg env d path start size argn args hrun
  rw [hops] at hexec
  have hw : wrapInt (start + size) = start + size :=
    wrapInt_of_range _ (by omega) (by omega)
  apply exec_makes_live cfg i _ s0 s1 _ _ hexec
  · intro op hop
    rcases List.mem_append.mp hop with hop | hop
    · rcases List.mem_append.mp hop with hop | hop
      · rcases List.mem_append.mp hop with hop | hop
        · exact gentle_packOps cfg hl i argn args op hop
        · obtain ⟨r, c, rfl⟩ := loadLoop_ops env path _ op hop
          intro s; left; rfl
      · obtain ⟨j, _, rfl⟩ := List.mem_map.mp hop
        exact gentle_markOp cfg i j
    · obtain ⟨r, c, rfl⟩ := startLoop_ops env _ op hop
      intro s; left; rfl
  · refine ⟨markOp cfg (i.val : Int), ?_, fun t => markOp_sets cfg i t⟩
    apply List.mem_append_left
    apply List.mem_append_right
    apply List.mem_map.mpr
    exact ⟨(i.val : Int), (mem_forRange _ _ _).mpr ⟨h1, by rw [hw]; exact h2⟩, rfl⟩

/-- C1: take a range inside the grid, a `dev_run` on it that returns 0, any
run of its fabric calls on the status words in which only the device moves
words (SCHEDULED to RUNNING, RUNNING to DONE) in between and afterwards, and
the snapshots read by a following `dev_wait`.  If `dev_wait` returns, it
returns 0 on some snapshot `k`, having found a SCHEDULED or RUNNING word in
every earlier snapshot; in snapshot `k` every core of the range reads DONE, so
none of them is SCHEDULED or RUNNING. -/
theorem launch_then_wait (cfg : Config) (hd : cfg.StatusDistinct) (hl : cfg.CtrlLayout)
    (env : Fabric) (d : Option epiphany_dev_data) (path : Nat) (start size argn : Int)
    (args : Nat → p_arg_t)
    (hrange : 0 ≤ start ∧ 0 < size ∧ start + size ≤ 16)
    (hrun : (dev_run cfg env d path start size argn args).ret = 0)
    (s0 s1 : StatusArray)
    (hexec : Exec cfg (dev_run cfg env d path start size argn args).ops s0 s1)
    (reads : Nat → StatusArray) (h0 : DevSteps cfg s1 (reads 0))
    (hstep : ∀ k, DevSteps cfg (reads k) (reads (k + 1)))
    (fuel : Nat) (r : WaitResult) (hw : dev_wait cfg reads fuel = some r) :
    ∃ k, r.ret = 0 ∧ r.ctrl = reads k ∧ r.ops = waitOps k ∧
      (∀ j, j < k → Busy cfg (reads j)) ∧
      (∀ i : Fin 16, start ≤ (i.val : Int) → (i.val : Int) < start + size →
        reads k i = cfg.STATUS_DONE) ∧
      (∀ i : Fin 16, start ≤ (i.val : Int) → (i.val : Int) < start + size →
        reads k i ≠ cfg.STATUS_SCHEDULED ∧ reads k i ≠ cfg.STATUS_RUNNING) := by
  obtain ⟨k, _, hbusy, hidle, hret, hctrl, hops⟩ := waitLoop_some cfg reads fuel 0 [] r hw
  simp only [Nat.zero_add, List.nil_append] at hbusy hidle hctrl hops
  have hlive : ∀ n, ∀ i : Fin 16, start ≤ (i.val : Int) → (i.val : Int) < start + size →
      Live cfg (reads n i) := by
    intro n
    induction n with
    | zero =>
      intro i h1 h2
      exact live_of_steps cfg _ _ (h0 i)
        (launched_range_live cfg hl env d path start size argn args hrange hrun s0 s1 hexec i h1 h2)
    | succ n ih =>
      intro i h1 h2
      exact live_of_steps cfg _ _ (hstep n i) (ih i h1 h2)
  have hdone : ∀ i : Fin 16, start ≤ (i.val : Int) → (i.val : Int) < start + size →
      reads k i = cfg.STATUS_DONE := by
    intro i h1 h2
    rcases hlive k i h1 h2 with h | h | h
    · exact absurd ⟨i, Or.inl h⟩ hidle
    · exact absurd ⟨i, Or.inr h⟩ hidle
    · exact h
  obtain ⟨_, _, _, _, hsd, hrd⟩ := hd
  refine ⟨k, hret, hctrl, hops, hbusy, hdone, ?_⟩
  intro i h1 h2
  rw [hdone i h1 h2]
  exact ⟨fun h => hsd h.symm, fun h => hrd h.symm⟩

/-- Instance: cores 5 and 6 launched on the sample configuration from an all-NONE control region; the first snapshot still shows them SCHEDULED, the second shows them DONE. -/
theorem launch_then_wait_witness :
    (dev_run sampleConfig okFabric (some ⟨true⟩) 7 5 2 0 (fun _ => ⟨0, 0⟩)).ret = 0 ∧
    Busy sampleConfig (sampleReads 0) ∧
    ∃ k, (0 : Int) = 0 ∧ sampleReads 1 = sampleReads k ∧ waitOps 1 = waitOps k ∧
      (∀ j, j < k → Busy sampleConfig (sampleReads j)) ∧
      (∀ i : Fin 16, (5 : Int) ≤ (i.val : Int) → (i.val : Int) < 5 + 2 →
        sampleReads k i = sampleConfig.STATUS_DONE) ∧
      (∀ i : Fin 16, (5 : Int) ≤ (i.val : Int) → (i.val : Int) < 5 + 2 →
        sampleReads k i ≠ sampleConfig.STATUS_SCHEDULED ∧
        sampleReads k i ≠ sampleConfig.STATUS_RUNNING) :=
  ⟨by decide, ⟨⟨5, by decide⟩, Or.inl (by decide)⟩,
    launch_then_wait sampleConfig (by decide) (by decide) okFabric (some ⟨true⟩) 7 5 2 0
      (fun _ => ⟨0, 0⟩) (by decide) (by decide) (fun _ => 0) sampleLaunched
      (exec_applyOps sampleConfig _ _) sampleReads (devSteps_refl _ _)
      (fun k => by
        cases k with
        | zero => exact devSteps_finishAll sampleConfig sampleLaunched
        | succ n => exact devSteps_refl _ _)
      5 ⟨0, sampleReads 1, waitOps 1⟩ rfl⟩

end Epiphany
